import Mathlib

/-!
Shallow embedding of the kubernetes-scraper relationship-graph engine.

The embedding follows the Go sources:
* `graph/graph.go` — the graph store (`Graph`, `AddNode`, `UpdateNode`,
  `RemoveNode`, `objectToGraphNode`, `AddRelationship`, `RemoveRelationship`);
* `main.go` — the event pipeline (`listAllResources`, `watchResource`,
  `updateRelationships`, `removeResourceRelationships`, `emitGraph`) together
  with the global `podCache` / `serviceCache` maps.

Modelling conventions:
* Go `interface{}` values holding unstructured Kubernetes objects are modelled
  by the JSON-like type `Val`; a Go `map[string]interface{}` is a
  `List (String × Val)` association list with unique keys.
* A Go type assertion `x.(T)` written WITHOUT the comma-ok form panics when it
  fails; such computations live in `Option`, where `none` means the goroutine
  panics.  A comma-ok assertion `v, ok := x.(T)` is modelled by a total
  function returning `Option` that is matched on locally.
* Go map indexing `m[k]` yields the zero value (`nil`, modelled `Val.null`)
  for an absent key; `v, ok := m[k]` presence tests are modelled by
  `List.lookup`.
* Go slices aliasing a shared backing array matter in exactly one place,
  `removeResourceRelationships`, which ranges over `g.Relationships` while
  `RemoveRelationship` rewrites it in place; there the backing array and the
  current slice length are modelled explicitly.
* Machine integers only ever count upwards from small values here (revision
  counters, replica counts), far from overflow, so they are modelled by
  `Nat`/`Int` without wrap-around.
-/

namespace KubeScraper

/-- JSON-like unstructured value: the dynamic payload carried by Go
`interface{}` for Kubernetes objects (`runtime.DefaultUnstructuredConverter`
output and decoded list results). -/
inductive Val where
  | null
  | str (s : String)
  | num (n : Int)
  | vmap (entries : List (String × Val))
  | varr (elems : List Val)

mutual

/-- Structural boolean equality on `Val` (Go `==` on comparable interface
values; label and selector values compared by `updateRelationships` are
strings, where Go interface equality agrees with structural equality). -/
def Val.beq : Val → Val → Bool
  | Val.null, Val.null => true
  | Val.str a, Val.str b => a == b
  | Val.num a, Val.num b => a == b
  | Val.vmap a, Val.vmap b => beqFields a b
  | Val.varr a, Val.varr b => beqElems a b
  | _, _ => false

/-- Boolean equality on `Val` map entries. -/
def beqFields : List (String × Val) → List (String × Val) → Bool
  | [], [] => true
  | (k, v) :: rest, (k2, v2) :: rest2 => k == k2 && Val.beq v v2 && beqFields rest rest2
  | _, _ => false

/-- Boolean equality on `Val` array elements. -/
def beqElems : List Val → List Val → Bool
  | [], [] => true
  | v :: rest, v2 :: rest2 => Val.beq v v2 && beqElems rest rest2
  | _, _ => false

end

mutual

theorem Val.beq_iff : ∀ a b : Val, Val.beq a b = true ↔ a = b
  | Val.null, Val.null => by simp [Val.beq]
  | Val.null, Val.str _ => by simp [Val.beq]
  | Val.null, Val.num _ => by simp [Val.beq]
  | Val.null, Val.vmap _ => by simp [Val.beq]
  | Val.null, Val.varr _ => by simp [Val.beq]
  | Val.str _, Val.null => by simp [Val.beq]
  | Val.str a, Val.str b => by simp [Val.beq]
  | Val.str _, Val.num _ => by simp [Val.beq]
  | Val.str _, Val.vmap _ => by simp [Val.beq]
  | Val.str _, Val.varr _ => by simp [Val.beq]
  | Val.num _, Val.null => by simp [Val.beq]
  | Val.num _, Val.str _ => by simp [Val.beq]
  | Val.num a, Val.num b => by simp [Val.beq]
  | Val.num _, Val.vmap _ => by simp [Val.beq]
  | Val.num _, Val.varr _ => by simp [Val.beq]
  | Val.vmap _, Val.null => by simp [Val.beq]
  | Val.vmap _, Val.str _ => by simp [Val.beq]
  | Val.vmap _, Val.num _ => by simp [Val.beq]
  | Val.vmap a, Val.vmap b => by
      simp only [Val.beq, Val.vmap.injEq]
      exact beqFields_iff a b
  | Val.vmap _, Val.varr _ => by simp [Val.beq]
  | Val.varr _, Val.null => by simp [Val.beq]
  | Val.varr _, Val.str _ => by simp [Val.beq]
  | Val.varr _, Val.num _ => by simp [Val.beq]
  | Val.varr _, Val.vmap _ => by simp [Val.beq]
  | Val.varr a, Val.varr b => by
      simp only [Val.beq, Val.varr.injEq]
      exact beqElems_iff a b

theorem beqFields_iff : ∀ a b : List (String × Val), beqFields a b = true ↔ a = b
  | [], [] => by simp [beqFields]
  | [], _ :: _ => by simp [beqFields]
  | _ :: _, [] => by simp [beqFields]
  | (k, v) :: rest, (k2, v2) :: rest2 => by
      simp only [beqFields, Bool.and_eq_true, beq_iff_eq, List.cons.injEq, Prod.mk.injEq]
      rw [Val.beq_iff v v2, beqFields_iff rest rest2]

theorem beqElems_iff : ∀ a b : List Val, beqElems a b = true ↔ a = b
  | [], [] => by simp [beqElems]
  | [], _ :: _ => by simp [beqElems]
  | _ :: _, [] => by simp [beqElems]
  | v :: rest, v2 :: rest2 => by
      simp only [beqElems, Bool.and_eq_true, List.cons.injEq]
      rw [Val.beq_iff v v2, beqElems_iff rest rest2]

end

instance : DecidableEq Val := fun a b => decidable_of_iff _ (Val.beq_iff a b)

/-- A Go `map[string]interface{}` (one unstructured Kubernetes object or a
nested object inside one). -/
abbrev UMap := List (String × Val)

/-- Go map indexing `m[k]`: the stored value, or the zero value `nil`
(`Val.null`) when the key is absent. -/
def mget (m : UMap) (k : String) : Val :=
  match m.lookup k with
  | some v => v
  | none => Val.null

/-- Comma-ok type assertion `x.(map[string]interface{})`. -/
def Val.asMap : Val → Option UMap
  | Val.vmap m => some m
  | _ => none

/-- Comma-ok type assertion `x.(string)`. -/
def Val.asStr : Val → Option String
  | Val.str s => some s
  | _ => none

/-- Comma-ok type assertion `x.([]interface{})`. -/
def Val.asArr : Val → Option (List Val)
  | Val.varr a => some a
  | _ => none

/-- Go `map[string]string` (labels, selectors, property bags). -/
abbrev PropMap := List (String × String)

/-- EntityKey uniquely identifies a Kubernetes resource (graph/graph.go).
Fields `Name`, `Ns`, `Ty` embed the Go fields `Name`, `Namespace`, `Type`
(`Namespace` and `Type` are Lean keywords). -/
structure EntityKey where
  Name : String
  Ns : String
  Ty : String
deriving DecidableEq

/-- GraphNode represents a node in the relationship graph (graph/graph.go). -/
structure GraphNode where
  Key : EntityKey
  Properties : PropMap
  Revision : Nat
deriving DecidableEq

/-- GraphRelationship represents an edge in the graph (graph/graph.go);
`Properties` is a nil-able Go map, hence `Option`. -/
structure GraphRelationship where
  Source : EntityKey
  Target : EntityKey
  RelationshipType : String
  Properties : Option PropMap
  Revision : Nat
deriving DecidableEq

/-- Graph holds the complete set of nodes and relationships (graph/graph.go);
`revision` is the private counter `g.revision` (never read back, not
serialized). -/
structure Graph where
  Nodes : List GraphNode
  Relationships : List GraphRelationship
  revision : Nat
deriving DecidableEq

/-- NewGraph creates a new empty graph (graph/graph.go). -/
def NewGraph : Graph := { Nodes := [], Relationships := [], revision := 1 }

/-- The field-by-field key comparison
`n.Key.Name == k.Name && n.Key.Namespace == k.Namespace && n.Key.Type == k.Type`
used by `AddNode`, `RemoveNode` and `removeResourceRelationships`. -/
def keyEq (a b : EntityKey) : Bool :=
  a.Name == b.Name && a.Ns == b.Ns && a.Ty == b.Ty

/-- The relationship-identity comparison used by `AddRelationship` and
`RemoveRelationship`: source key, target key and relationship type all
field-by-field equal. -/
def relIdEq (rel : GraphRelationship) (source target : EntityKey) (relationshipType : String) : Bool :=
  keyEq rel.Source source && keyEq rel.Target target && rel.RelationshipType == relationshipType

theorem keyEq_iff (a b : EntityKey) : keyEq a b = true ↔ a = b := by
  cases a; cases b
  simp [keyEq, EntityKey.mk.injEq, and_assoc]

/-- metav1.OwnerReference, restricted to the fields the scraper reads. -/
structure OwnerRef where
  kind : String
  name : String
deriving DecidableEq

/-- A pod-template volume: `some n` is a volume whose `configMap.name` is `n`,
`none` is any other volume source. -/
abbrev VolumeSrc := Option String

/-- The typed Kubernetes objects delivered as `event.Object` on watch streams
(`*corev1.Pod`, `*appsv1.ReplicaSet`, `*appsv1.Deployment`, `*corev1.Node`,
`*corev1.Service`, `*corev1.ConfigMap`), restricted to the fields the scraper
reads.  `replicas` is the nil-able pointer `*int32 Spec.Replicas`.
`other` stands for any dynamic type not matched by `objectToGraphNode`. -/
inductive K8sTyped where
  | pod (name ns phase nodeName : String) (labels : PropMap) (ownerRefs : List OwnerRef)
  | replicaSet (name ns : String) (replicas : Option Int) (ownerRefs : List OwnerRef)
  | deployment (name ns : String) (replicas : Option Int) (volumes : List VolumeSrc)
  | node (name phase : String)
  | service (name ns stype : String) (selector : PropMap)
  | configMap (name ns : String) (data : PropMap)
  | other
deriving DecidableEq

/-- The `resourceType` string of the per-kind watcher that delivers this
object (`watchAllResources` wires one `watchResource` goroutine per kind). -/
def K8sTyped.kindStr : K8sTyped → String
  | .pod .. => "Pod"
  | .replicaSet .. => "ReplicaSet"
  | .deployment .. => "Deployment"
  | .node .. => "Node"
  | .service .. => "Service"
  | .configMap .. => "ConfigMap"
  | .other => ""

/-- A Go `interface{}` argument of the graph-store methods: either a typed
object (the watch path passes `event.Object`) or an unstructured map (the
listing path passes decoded list items). -/
inductive GoObj where
  | typed (o : K8sTyped)
  | unstructured (v : Val)

/-- Rendering of `fmt.Sprintf("%v", o.Data)` for a ConfigMap data map
(modelled as a flat rendering of the entries; no claim inspects it). -/
def cmDataString (d : PropMap) : String :=
  "map[" ++ String.intercalate " " (d.map (fun kv => kv.1 ++ ":" ++ kv.2)) ++ "]"

/-- objectToGraphNode converts a Kubernetes object to a GraphNode
(graph/graph.go).  Outer `none` = the goroutine panics (the nil-pointer
dereference `*o.Spec.Replicas` when `Spec.Replicas` is nil); inner `none` =
the Go function returns `nil` (the `default` branch, taken by every
non-pointer or unstructured argument). -/
def objectToGraphNode : GoObj → Option (Option GraphNode)
  | .typed (.pod name ns phase _ _ _) =>
      some (some ⟨⟨name, ns, "Pod"⟩, [("status", phase)], 1⟩)
  | .typed (.replicaSet name ns replicas _) =>
      match replicas with
      | none => none
      | some r => some (some ⟨⟨name, ns, "ReplicaSet"⟩, [("replicas", toString r)], 1⟩)
  | .typed (.deployment name ns replicas _) =>
      match replicas with
      | none => none
      | some r => some (some ⟨⟨name, ns, "Deployment"⟩, [("replicas", toString r)], 1⟩)
  | .typed (.node name phase) =>
      some (some ⟨⟨name, "", "Node"⟩, [("status", phase)], 1⟩)
  | .typed (.service name ns stype _) =>
      some (some ⟨⟨name, ns, "Service"⟩, [("type", stype)], 1⟩)
  | .typed (.configMap name ns data) =>
      some (some ⟨⟨name, ns, "ConfigMap"⟩, [("data", cmDataString data)], 1⟩)
  | .typed .other => some none
  | .unstructured _ => some none

/-- The `AddNode` scan: replace the first node with the same key, or report
that none exists. -/
def replaceNode (node : GraphNode) : List GraphNode → Option (List GraphNode)
  | [] => none
  | n :: rest =>
      if keyEq n.Key node.Key then some (node :: rest)
      else (replaceNode node rest).map (n :: ·)

/-- AddNode adds a node to the graph, replacing an existing node with the
same key (graph/graph.go); `none` = panic inside `objectToGraphNode`. -/
def Graph.AddNode (g : Graph) (obj : GoObj) : Option Graph :=
  match objectToGraphNode obj with
  | none => none
  | some none => some g
  | some (some node) =>
      match replaceNode node g.Nodes with
      | some nodes => some { g with Nodes := nodes, revision := g.revision + 1 }
      | none => some { g with Nodes := g.Nodes ++ [node], revision := g.revision + 1 }

/-- UpdateNode updates an existing node in the graph (graph/graph.go):
delegates to `AddNode`. -/
def Graph.UpdateNode (g : Graph) (obj : GoObj) : Option Graph :=
  g.AddNode obj

/-- The `RemoveNode` scan: erase the first node with the given key and
return, or report that none exists. -/
def eraseNode (key : EntityKey) : List GraphNode → Option (List GraphNode)
  | [] => none
  | n :: rest =>
      if keyEq n.Key key then some rest
      else (eraseNode key rest).map (n :: ·)

/-- Whether a relationship has the given key as source or target (the
condition of the cascade loops in `RemoveNode` and
`removeResourceRelationships`). -/
def relTouches (rel : GraphRelationship) (key : EntityKey) : Bool :=
  keyEq rel.Source key || keyEq rel.Target key

/-- RemoveNode removes a node from the graph (graph/graph.go).  When the node
is found the Go function returns immediately after erasing it, so its
relationship-cascade loop below the node loop only runs when the node was NOT
found (that loop removes every relationship touching the key, via indexed
in-place erasure with `i--`, i.e. a filter). -/
def Graph.RemoveNode (g : Graph) (obj : GoObj) : Option Graph :=
  match objectToGraphNode obj with
  | none => none
  | some none => some g
  | some (some node) =>
      match eraseNode node.Key g.Nodes with
      | some nodes => some { g with Nodes := nodes, revision := g.revision + 1 }
      | none =>
          some { g with Relationships := g.Relationships.filter (fun rel => !relTouches rel node.Key) }

/-- The `AddRelationship` scan: bump the first relationship with the same
identity triple (setting its properties), or report that none exists. -/
def updateRel (source target : EntityKey) (relationshipType : String)
    (properties : Option PropMap) : List GraphRelationship → Option (List GraphRelationship)
  | [] => none
  | rel :: rest =>
      if relIdEq rel source target relationshipType then
        some ({ rel with Properties := properties, Revision := rel.Revision + 1 } :: rest)
      else (updateRel source target relationshipType properties rest).map (rel :: ·)

/-- AddRelationship adds a relationship to the graph (graph/graph.go): a
relationship with the same (source, target, relationshipType) identity is
updated in place (properties overwritten, revision bumped), otherwise a new
relationship with revision 1 is appended. -/
def Graph.AddRelationship (g : Graph) (source target : EntityKey) (relationshipType : String)
    (properties : Option PropMap) : Graph :=
  match updateRel source target relationshipType properties g.Relationships with
  | some rels => { g with Relationships := rels, revision := g.revision + 1 }
  | none =>
      { g with
        Relationships := g.Relationships ++ [⟨source, target, relationshipType, properties, 1⟩],
        revision := g.revision + 1 }

/-- The `RemoveRelationship` scan: erase the first relationship with the
given identity triple, or report that none exists. -/
def eraseRel (source target : EntityKey) (relationshipType : String) :
    List GraphRelationship → Option (List GraphRelationship)
  | [] => none
  | rel :: rest =>
      if relIdEq rel source target relationshipType then some rest
      else (eraseRel source target relationshipType rest).map (rel :: ·)

/-- RemoveRelationship removes a relationship from the graph (graph/graph.go):
the first relationship whose identity triple matches is erased and the
function returns; when none matches the graph is untouched. -/
def Graph.RemoveRelationship (g : Graph) (source target : EntityKey)
    (relationshipType : String) : Graph :=
  match eraseRel source target relationshipType g.Relationships with
  | some rels => { g with Relationships := rels, revision := g.revision + 1 }
  | none => g

/-- The `g.Relationships` slice as `removeResourceRelationships` sees it:
`backing` is the shared backing array at its original length and `len` the
current slice length.  `RemoveRelationship`'s in-place
`append(g.Relationships[:i], g.Relationships[i+1:]...)` shifts elements left
inside the backing array and leaves the stale last element in place, while
the `range` loop keeps reading the backing array at the original length. -/
structure RelSlice where
  backing : List GraphRelationship
  len : Nat
deriving DecidableEq

/-- `RemoveRelationship` acting on the aliased slice: the first identity
match within the current length is erased in place (elements after it shift
left; the slot at `len - 1` keeps its old value), the length shrinks by one
and the store revision is bumped.  No match leaves everything unchanged. -/
def removeRelAliased (source target : EntityKey) (relationshipType : String)
    (s : RelSlice) (rev : Nat) : RelSlice × Nat :=
  let current := s.backing.take s.len
  match current.findIdx? (fun rel => relIdEq rel source target relationshipType) with
  | none => (s, rev)
  | some i => (⟨current.eraseIdx i ++ s.backing.drop (s.len - 1), s.len - 1⟩, rev + 1)

/-- The `for _, rel := range g.Relationships` loop of
`removeResourceRelationships`: `i` is the current index into the backing
array, `remaining` the iterations left of the original length captured by
`range`. -/
def rrrLoop (key : EntityKey) : Nat → Nat → RelSlice → Nat → RelSlice × Nat
  | _, 0, s, rev => (s, rev)
  | i, remaining + 1, s, rev =>
      match s.backing.get? i with
      | none => rrrLoop key (i + 1) remaining s rev
      | some rel =>
          if relTouches rel key then
            let (s2, rev2) := removeRelAliased rel.Source rel.Target rel.RelationshipType s rev
            rrrLoop key (i + 1) remaining s2 rev2
          else rrrLoop key (i + 1) remaining s rev

/-- removeResourceRelationships (main.go): ranges over `g.Relationships`
calling `g.RemoveRelationship` on every relationship touching `key`, while
those calls rewrite the very slice being ranged over. -/
def removeResourceRelationships (g : Graph) (key : EntityKey) : Graph :=
  let orig := g.Relationships.length
  let (s, rev) := rrrLoop key 0 orig ⟨g.Relationships, orig⟩ g.revision
  { g with Relationships := s.backing.take s.len, revision := rev }

/-- One `metav1.OwnerReference` in unstructured form. -/
def ownerRefVal (r : OwnerRef) : Val :=
  Val.vmap [("kind", Val.str r.kind), ("name", Val.str r.name)]

/-- The `metadata` object produced by the unstructured converter: JSON
`omitempty` drops the namespace when empty and the labels / ownerReferences
maps when nil or empty. -/
def metaFields (name ns : String) (labels : PropMap) (refs : List OwnerRef) : UMap :=
  [("name", Val.str name)]
    ++ (if ns = "" then [] else [("namespace", Val.str ns)])
    ++ (if labels.isEmpty then [] else
        [("labels", Val.vmap (labels.map (fun kv => (kv.1, Val.str kv.2))))])
    ++ (if refs.isEmpty then [] else [("ownerReferences", Val.varr (refs.map ownerRefVal))])

/-- A pod-template volume in unstructured form. -/
def volumeVal : VolumeSrc → Val
  | some n => Val.vmap [("configMap", Val.vmap [("name", Val.str n)])]
  | none => Val.vmap []

/-- `runtime.DefaultUnstructuredConverter.ToUnstructured(event.Object)`
restricted to the fields the scraper reads, following the JSON `omitempty`
tags of the corresponding Go API types: empty strings, empty maps and empty
slices are omitted, while the `spec` / `status` structs themselves are always
present. -/
def toUnstructured : K8sTyped → UMap
  | .pod name ns phase nodeName labels refs =>
      [("metadata", Val.vmap (metaFields name ns labels refs)),
       ("spec", Val.vmap (if nodeName = "" then [] else [("nodeName", Val.str nodeName)])),
       ("status", Val.vmap (if phase = "" then [] else [("phase", Val.str phase)]))]
  | .replicaSet name ns replicas refs =>
      [("metadata", Val.vmap (metaFields name ns [] refs)),
       ("spec", Val.vmap (match replicas with
         | none => []
         | some r => [("replicas", Val.num r)]))]
  | .deployment name ns replicas volumes =>
      [("metadata", Val.vmap (metaFields name ns [] [])),
       ("spec", Val.vmap ((match replicas with
           | none => []
           | some r => [("replicas", Val.num r)])
         ++ [("template", Val.vmap
              [("spec", Val.vmap (if volumes.isEmpty then [] else
                 [("volumes", Val.varr (volumes.map volumeVal))]))])]))]
  | .node name phase =>
      [("metadata", Val.vmap [("name", Val.str name)]),
       ("status", Val.vmap (if phase = "" then [] else [("phase", Val.str phase)]))]
  | .service name ns stype selector =>
      [("metadata", Val.vmap (metaFields name ns [] [])),
       ("spec", Val.vmap ((if stype = "" then [] else [("type", Val.str stype)])
         ++ (if selector.isEmpty then [] else
             [("selector", Val.vmap (selector.map (fun kv => (kv.1, Val.str kv.2))))])))]
  | .configMap name ns data =>
      [("metadata", Val.vmap (metaFields name ns [] [])),
       ("data", Val.vmap (data.map (fun kv => (kv.1, Val.str kv.2))))]
  | .other => []

/-- The selector-match loop shared by `listAllResources` and
`updateRelationships`: `matches` stays true unless some selector entry
differs from the pod's label map (`podLabels[key] != value`, where an absent
key indexes to nil).  An empty selector therefore leaves `matches` true. -/
def matchesSelector (selector podLabels : UMap) : Bool :=
  selector.all (fun kv => Val.beq (mget podLabels kv.1) kv.2)

/-- The pod-labels extraction with nil check
(`labelsInterface, ok := meta["labels"]; ok && labelsInterface != nil`
followed by the panicking assertion `labelsInterface.(map[string]interface{})`):
absent or nil labels leave the fresh empty map. -/
def labelsOf (pmeta : UMap) : Option UMap :=
  match pmeta.lookup "labels" with
  | none => some []
  | some Val.null => some []
  | some v => v.asMap

/-- The shared shape of the two `ownerReferences` loops in
`updateRelationships` (Pod → ReplicaSet and ReplicaSet → Deployment): each
element is asserted to a map (panic on failure), its `kind` and — when the
kind matches `wantKind` — its `name` are asserted to strings (panic on
failure), and an `owned_by` edge to `(name, source namespace, wantKind)` is
added. -/
def ownerRefsLoop (source : EntityKey) (wantKind : String) (g : Graph) :
    List Val → Option Graph
  | [] => some g
  | r :: rest =>
      match r.asMap with
      | none => none
      | some owner =>
          match (mget owner "kind").asStr with
          | none => none
          | some kind =>
              if kind = wantKind then
                match (mget owner "name").asStr with
                | none => none
                | some oname =>
                    ownerRefsLoop source wantKind
                      (g.AddRelationship source ⟨oname, source.Ns, wantKind⟩ "owned_by" none) rest
              else ownerRefsLoop source wantKind g rest

/-- The `for _, pod := range podCache` loop of the Service case of
`updateRelationships`: each cached pod's metadata, name and namespace are
extracted through panicking assertions, its labels through `labelsOf`; a
matching pod gets a `targets` edge added, a non-matching pod gets it
removed. -/
def svcPodLoop (svc : EntityKey) (selector : UMap) (g : Graph) :
    List (String × UMap) → Option Graph
  | [] => some g
  | (_, pod) :: rest =>
      match (mget pod "metadata").asMap with
      | none => none
      | some pmeta =>
          match (mget pmeta "name").asStr with
          | none => none
          | some podName =>
              match (mget pmeta "namespace").asStr with
              | none => none
              | some podNamespace =>
                  match labelsOf pmeta with
                  | none => none
                  | some podLabels =>
                      let g2 :=
                        if matchesSelector selector podLabels then
                          g.AddRelationship svc ⟨podName, podNamespace, "Pod"⟩ "targets" none
                        else
                          g.RemoveRelationship svc ⟨podName, podNamespace, "Pod"⟩ "targets"
                      svcPodLoop svc selector g2 rest

/-- The volumes loop of the Deployment case of `updateRelationships`: each
volume is asserted to a map (panic on failure); when a `configMap` key is
present its value is asserted to a map and its `name` to a string (both
panicking), and a `uses` edge is added. -/
def volumesLoop (dep : EntityKey) (g : Graph) : List Val → Option Graph
  | [] => some g
  | v :: rest =>
      match v.asMap with
      | none => none
      | some vol =>
          match vol.lookup "configMap" with
          | none => volumesLoop dep g rest
          | some cmv =>
              match cmv.asMap with
              | none => none
              | some cm =>
                  match (mget cm "name").asStr with
                  | none => none
                  | some cmName =>
                      volumesLoop dep
                        (g.AddRelationship dep ⟨cmName, dep.Ns, "ConfigMap"⟩ "uses" none) rest

/-- updateRelationships (main.go): derives the relationship updates for one
changed entity.  `none` = the goroutine panics on a failed non-comma-ok type
assertion.  Comma-ok assertions that fail skip the corresponding rule.  Note
that the intermediate assertions of the chained accesses
(`obj["spec"].(map[string]interface{})`, `...["template"].(...)`, …) are NOT
comma-ok and hence panic, only the final assertion of each `if … ; ok` header
is guarded. -/
def updateRelationships (g : Graph) (obj : UMap) (resourceType name ns : String)
    (podCache : List (String × UMap)) : Option Graph :=
  if resourceType = "Pod" then
    match (mget obj "spec").asMap with
    | none => none
    | some spec =>
        let g1 :=
          match (mget spec "nodeName").asStr with
          | some nodeName =>
              if nodeName ≠ "" then
                g.AddRelationship ⟨name, ns, "Pod"⟩ ⟨nodeName, "", "Node"⟩ "runs_on" none
              else g
          | none => g
        match (mget obj "metadata").asMap with
        | none => none
        | some metadata =>
            match (mget metadata "ownerReferences").asArr with
            | none => some g1
            | some refs => ownerRefsLoop ⟨name, ns, "Pod"⟩ "ReplicaSet" g1 refs
  else if resourceType = "ReplicaSet" then
    match (mget obj "metadata").asMap with
    | none => none
    | some metadata =>
        match (mget metadata "ownerReferences").asArr with
        | none => some g
        | some refs => ownerRefsLoop ⟨name, ns, "ReplicaSet"⟩ "Deployment" g refs
  else if resourceType = "Service" then
    match (mget obj "spec").asMap with
    | none => none
    | some spec =>
        match (mget spec "selector").asMap with
        | none => some g
        | some selector => svcPodLoop ⟨name, ns, "Service"⟩ selector g podCache
  else if resourceType = "Deployment" then
    match (mget obj "spec").asMap with
    | none => none
    | some spec =>
        match (mget spec "template").asMap with
        | none => none
        | some template =>
            match (mget template "spec").asMap with
            | none => none
            | some tspec =>
                match (mget tspec "volumes").asArr with
                | none => some g
                | some volumes => volumesLoop ⟨name, ns, "Deployment"⟩ g volumes
  else some g

/-- The watch event types consumed by `watchResource` (main.go). -/
inductive EventType where
  | added
  | modified
  | deleted
deriving DecidableEq

/-- The shared mutable state of the process: the graph plus the global
`podCache` and `serviceCache` maps (keyed `namespace/name`). -/
structure AppState where
  graph : Graph
  podCache : List (String × UMap)
  serviceCache : List (String × UMap)
deriving DecidableEq

/-- Go map assignment `m[k] = v`: replace the existing entry or insert a new
one. -/
def cacheSet (c : List (String × UMap)) (k : String) (v : UMap) : List (String × UMap) :=
  match c with
  | [] => [(k, v)]
  | (k2, v2) :: rest => if k2 = k then (k, v) :: rest else (k2, v2) :: cacheSet rest k v

/-- Go map deletion `delete(m, k)`. -/
def cacheDel (c : List (String × UMap)) (k : String) : List (String × UMap) :=
  c.filter (fun kv => kv.1 ≠ k)

/-- The cache key `fmt.Sprintf("%s/%s", namespace, name)`. -/
def cacheKey (ns name : String) : String := ns ++ "/" ++ name

/-- One iteration of the event loop of `watchResource` (main.go): convert the
typed object to unstructured form, extract name and namespace (namespace with
presence and nil check), then dispatch on the event type through
`AddNode` / `UpdateNode` / `RemoveNode`, `updateRelationships` or
`removeResourceRelationships`, and finally maintain the pod / service caches.
`none` = the goroutine panics. -/
def processEvent (s : AppState) (etype : EventType) (objT : K8sTyped) : Option AppState :=
  let u := toUnstructured objT
  let resourceType := objT.kindStr
  match (mget u "metadata").asMap with
  | none => none
  | some metadata =>
  match (mget metadata "name").asStr with
  | none => none
  | some name =>
  match (match metadata.lookup "namespace" with
         | none => some ""
         | some Val.null => some ""
         | some v => v.asStr) with
  | none => none
  | some ns =>
  match etype with
  | .added =>
      match s.graph.AddNode (GoObj.typed objT) with
      | none => none
      | some g1 =>
          match updateRelationships g1 u resourceType name ns s.podCache with
          | none => none
          | some g2 =>
              some { graph := g2,
                     podCache := if resourceType = "Pod" then
                         cacheSet s.podCache (cacheKey ns name) u else s.podCache,
                     serviceCache := if resourceType = "Service" then
                         cacheSet s.serviceCache (cacheKey ns name) u else s.serviceCache }
  | .modified =>
      match s.graph.UpdateNode (GoObj.typed objT) with
      | none => none
      | some g1 =>
          match updateRelationships g1 u resourceType name ns s.podCache with
          | none => none
          | some g2 =>
              some { graph := g2,
                     podCache := if resourceType = "Pod" then
                         cacheSet s.podCache (cacheKey ns name) u else s.podCache,
                     serviceCache := if resourceType = "Service" then
                         cacheSet s.serviceCache (cacheKey ns name) u else s.serviceCache }
  | .deleted =>
      match s.graph.RemoveNode (GoObj.typed objT) with
      | none => none
      | some g1 =>
          let g2 := removeResourceRelationships g1 ⟨name, ns, resourceType⟩
          some { graph := g2,
                 podCache := if resourceType = "Pod" then
                     cacheDel s.podCache (cacheKey ns name) else s.podCache,
                 serviceCache := if resourceType = "Service" then
                     cacheDel s.serviceCache (cacheKey ns name) else s.serviceCache }

/-- A sequence of watch events processed in delivery order (one linearization
of the per-kind serialized streams). -/
def processEvents (s : AppState) : List (EventType × K8sTyped) → Option AppState
  | [] => some s
  | (e, o) :: rest =>
      match processEvent s e o with
      | none => none
      | some s2 => processEvents s2 rest

/-- The fresh initial state: `graph.NewGraph()` plus empty caches. -/
def initialState : AppState := { graph := NewGraph, podCache := [], serviceCache := [] }

/-- The recurring extraction sequence of `listAllResources`:
`obj.(map[string]interface{})`, then
`obj["metadata"].(map[string]interface{})["name"].(string)` and
`...["namespace"].(string)` — all panicking assertions. -/
def extractNameNs (v : Val) : Option (String × String × UMap) :=
  match v.asMap with
  | none => none
  | some obj =>
      match (mget obj "metadata").asMap with
      | none => none
      | some meta =>
          match (mget meta "name").asStr with
          | none => none
          | some name =>
              match (mget meta "namespace").asStr with
              | none => none
              | some ns => some (name, ns, obj)

/-- The cache-population loops of `listAllResources` (pods and services). -/
def cachePopLoop (c : List (String × UMap)) : List Val → Option (List (String × UMap))
  | [] => some c
  | v :: rest =>
      match extractNameNs v with
      | none => none
      | some (name, ns, obj) => cachePopLoop (cacheSet c (cacheKey ns name) obj) rest

/-- An `for … { g.AddNode(item) }` loop of `listAllResources`.  The listed
items are unstructured values, which fall to `objectToGraphNode`'s `default`
branch, so no node is ever indexed by the listing path. -/
def addNodesLoop (g : Graph) : List Val → Option Graph
  | [] => some g
  | v :: rest =>
      match g.AddNode (GoObj.unstructured v) with
      | none => none
      | some g2 => addNodesLoop g2 rest

/-- The pod relationship loop of `listAllResources` (lines 132-166):
`nodeName` is read through a panicking assertion chain, `ownerReferences`
through a presence-and-nil check followed by a panicking slice assertion. -/
def listPodRelsLoop (g : Graph) : List Val → Option Graph
  | [] => some g
  | v :: rest =>
      match extractNameNs v with
      | none => none
      | some (podName, podNamespace, podObj) =>
      match (mget podObj "spec").asMap with
      | none => none
      | some spec =>
      match (mget spec "nodeName").asStr with
      | none => none
      | some nodeName =>
      match (mget podObj "metadata").asMap with
      | none => none
      | some meta =>
      match (match meta.lookup "ownerReferences" with
             | none => some []
             | some Val.null => some []
             | some x => x.asArr) with
      | none => none
      | some ownerRefs =>
          let g1 :=
            if nodeName ≠ "" then
              g.AddRelationship ⟨podName, podNamespace, "Pod"⟩ ⟨nodeName, "", "Node"⟩ "runs_on" none
            else g
          match ownerRefsLoop ⟨podName, podNamespace, "Pod"⟩ "ReplicaSet" g1 ownerRefs with
          | none => none
          | some g2 => listPodRelsLoop g2 rest

/-- The ReplicaSet relationship loop of `listAllResources` (lines 168-186):
`ownerReferences` is read through a fully panicking assertion chain
(`rsObj["metadata"].(map[string]interface{})["ownerReferences"].([]interface{})`)
with no presence check at all. -/
def listRsRelsLoop (g : Graph) : List Val → Option Graph
  | [] => some g
  | v :: rest =>
      match extractNameNs v with
      | none => none
      | some (rsName, rsNamespace, rsObj) =>
      match (mget rsObj "metadata").asMap with
      | none => none
      | some meta =>
      match (mget meta "ownerReferences").asArr with
      | none => none
      | some refs =>
          match ownerRefsLoop ⟨rsName, rsNamespace, "ReplicaSet"⟩ "Deployment" g refs with
          | none => none
          | some g2 => listRsRelsLoop g2 rest

/-- The service-selector extraction of `listAllResources` (lines 193-197):
`selector := make(map[string]interface{})` stays the fresh empty map when the
key is absent or nil, otherwise the panicking map assertion runs. -/
def selectorOf (spec : UMap) : Option UMap :=
  match spec.lookup "selector" with
  | none => some []
  | some Val.null => some []
  | some v => v.asMap

/-- The inner pod loop of the service relationship pass of
`listAllResources` (lines 200-228): note there is no removal branch — a
non-matching pod is simply skipped. -/
def listSvcPodsLoop (svc : EntityKey) (selector : UMap) (g : Graph) : List Val → Option Graph
  | [] => some g
  | v :: rest =>
      match extractNameNs v with
      | none => none
      | some (podName, podNamespace, podObj) =>
      match (mget podObj "metadata").asMap with
      | none => none
      | some pmeta =>
      match labelsOf pmeta with
      | none => none
      | some podLabels =>
          let g2 :=
            if matchesSelector selector podLabels then
              g.AddRelationship svc ⟨podName, podNamespace, "Pod"⟩ "targets" none
            else g
          listSvcPodsLoop svc selector g2 rest

/-- The service relationship loop of `listAllResources` (lines 188-229). -/
def listSvcRelsLoop (pods : List Val) (g : Graph) : List Val → Option Graph
  | [] => some g
  | v :: rest =>
      match extractNameNs v with
      | none => none
      | some (svcName, svcNamespace, svcObj) =>
      match (mget svcObj "spec").asMap with
      | none => none
      | some spec =>
      match selectorOf spec with
      | none => none
      | some selector =>
          match listSvcPodsLoop ⟨svcName, svcNamespace, "Service"⟩ selector g pods with
          | none => none
          | some g2 => listSvcRelsLoop pods g2 rest

/-- The deployment relationship loop of `listAllResources` (lines 231-250):
`volumes` is read through a fully panicking assertion chain
(`...["spec"].(…)["template"].(…)["spec"].(…)["volumes"].([]interface{})`)
with no presence check at all. -/
def listDepRelsLoop (g : Graph) : List Val → Option Graph
  | [] => some g
  | v :: rest =>
      match extractNameNs v with
      | none => none
      | some (depName, depNamespace, depObj) =>
      match (mget depObj "spec").asMap with
      | none => none
      | some spec =>
      match (mget spec "template").asMap with
      | none => none
      | some template =>
      match (mget template "spec").asMap with
      | none => none
      | some tspec =>
      match (mget tspec "volumes").asArr with
      | none => none
      | some volumes =>
          match volumesLoop ⟨depName, depNamespace, "Deployment"⟩ g volumes with
          | none => none
          | some g2 => listDepRelsLoop g2 rest

/-- listAllResources (main.go): the startup listing pass over the six
resource kinds, taking the decoded list results as inputs (the Kubernetes
client itself is out of scope).  The body runs, in source order: pod cache
population, the six `AddNode` loops with the service cache population in the
middle, then the four relationship passes.  `none` = the process panics. -/
def listAllResources (pods replicasets deployments nodes services configmaps : List Val)
    (g : Graph) (podCache serviceCache : List (String × UMap)) :
    Option (Graph × List (String × UMap) × List (String × UMap)) :=
  match cachePopLoop podCache pods with
  | none => none
  | some podCache2 =>
  match addNodesLoop g pods with
  | none => none
  | some g1 =>
  match addNodesLoop g1 replicasets with
  | none => none
  | some g2 =>
  match addNodesLoop g2 deployments with
  | none => none
  | some g3 =>
  match addNodesLoop g3 nodes with
  | none => none
  | some g4 =>
  match cachePopLoop serviceCache services with
  | none => none
  | some serviceCache2 =>
  match addNodesLoop g4 services with
  | none => none
  | some g5 =>
  match addNodesLoop g5 configmaps with
  | none => none
  | some g6 =>
  match listPodRelsLoop g6 pods with
  | none => none
  | some g7 =>
  match listRsRelsLoop g7 replicasets with
  | none => none
  | some g8 =>
  match listSvcRelsLoop pods g8 services with
  | none => none
  | some g9 =>
  match listDepRelsLoop g9 deployments with
  | none => none
  | some g10 => some (g10, podCache2, serviceCache2)

/-- The identity triple of an edge: (source, target, relationshipType). -/
def idTriple (rel : GraphRelationship) : EntityKey × EntityKey × String :=
  (rel.Source, rel.Target, rel.RelationshipType)

/-- The identity triples of a graph's edges, in store order. -/
def Graph.idTriples (g : Graph) : List (EntityKey × EntityKey × String) :=
  g.Relationships.map idTriple

/-- The node-key sequence of the emitted snapshot: `emitGraph` (main.go)
marshals the `Graph` struct directly, so the JSON `nodes` array lists the
nodes in the order of the `Nodes` slice. -/
def emitNodeKeys (g : Graph) : List EntityKey :=
  g.Nodes.map (fun n => n.Key)

/-- The edge-identity sequence of the emitted snapshot: the JSON
`relationships` array lists the edges in the order of the `Relationships`
slice. -/
def emitRelIds (g : Graph) : List (EntityKey × EntityKey × String) :=
  g.idTriples

/-- Strict lexicographic order on character sequences by code point. -/
def strLtChars : List Char → List Char → Bool
  | [], [] => false
  | [], _ :: _ => true
  | _ :: _, [] => false
  | c :: cs, d :: ds =>
      if c.toNat < d.toNat then true
      else if d.toNat < c.toNat then false
      else strLtChars cs ds

/-- Strict lexicographic order on strings by code point. -/
def strLt (a b : String) : Bool := strLtChars a.data b.data

/-- Modelled from the spec: the EntityKey total order "(kind, namespace,
name)" used, per §4.3, to order `snapshot()` output "for deterministic,
diff-friendly output" (lexicographic on the three string components, each
compared lexicographically by code point; the source has no such order, so
this definition follows the spec's words and is compared against the
emission the source actually performs). -/
def specKeyLe (a b : EntityKey) : Bool :=
  strLt a.Ty b.Ty ||
    (a.Ty == b.Ty && (strLt a.Ns b.Ns ||
      (a.Ns == b.Ns && (strLt a.Name b.Name || a.Name == b.Name))))

/-- Whether a key sequence is sorted by the spec's EntityKey total order. -/
def specSorted : List EntityKey → Bool
  | [] => true
  | [_] => true
  | a :: b :: rest => specKeyLe a b && specSorted (b :: rest)

theorem relIdEq_iff (rel : GraphRelationship) (s t : EntityKey) (ty : String) :
    relIdEq rel s t ty = true ↔ idTriple rel = (s, t, ty) := by
  simp [relIdEq, idTriple, Bool.and_eq_true, keyEq_iff, Prod.ext_iff, and_assoc]

theorem updateRel_some_triples (s t : EntityKey) (ty : String) (p : Option PropMap) :
    ∀ l l2 : List GraphRelationship, updateRel s t ty p l = some l2 →
      l2.map idTriple = l.map idTriple := by
  intro l
  induction l with
  | nil => intro l2 h; simp [updateRel] at h
  | cons rel rest ih =>
      intro l2 h
      unfold updateRel at h
      by_cases hm : relIdEq rel s t ty = true
      · rw [if_pos hm] at h
        cases h
        simp [idTriple]
      · rw [if_neg hm] at h
        cases hu : updateRel s t ty p rest with
        | none => rw [hu] at h; simp at h
        | some rest2 =>
            rw [hu] at h
            simp only [Option.map_some'] at h
            cases h
            simp [ih rest2 hu]

theorem updateRel_none_iff (s t : EntityKey) (ty : String) (p : Option PropMap) :
    ∀ l : List GraphRelationship, updateRel s t ty p l = none ↔ (s, t, ty) ∉ l.map idTriple := by
  intro l
  induction l with
  | nil => simp [updateRel]
  | cons rel rest ih =>
      unfold updateRel
      rw [List.map_cons]
      by_cases hm : relIdEq rel s t ty = true
      · rw [if_pos hm]
        have ht := (relIdEq_iff rel s t ty).mp hm
        simp [ht]
      · rw [if_neg hm]
        have hne : idTriple rel ≠ (s, t, ty) := fun he => hm ((relIdEq_iff rel s t ty).mpr he)
        constructor
        · intro h hmem
          have hrest : updateRel s t ty p rest = none := by
            cases hu : updateRel s t ty p rest with
            | none => rfl
            | some r2 => rw [hu] at h; simp at h
          rcases List.mem_cons.mp hmem with he | hmem2
          · exact hne he.symm
          · exact (ih.mp hrest) hmem2
        · intro hmem
          have hrest : updateRel s t ty p rest = none :=
            ih.mpr (fun hc => hmem (List.mem_cons.mpr (Or.inr hc)))
          rw [hrest]
          rfl

/-- `AddRelationship` at the level of identity triples: an existing identity
is updated in place (triple sequence unchanged), a new identity is appended. -/
theorem idTriples_AddRelationship (g : Graph) (s t : EntityKey) (ty : String)
    (p : Option PropMap) :
    (g.AddRelationship s t ty p).idTriples =
      if (s, t, ty) ∈ g.idTriples then g.idTriples else g.idTriples ++ [(s, t, ty)] := by
  unfold Graph.AddRelationship
  cases hu : updateRel s t ty p g.Relationships with
  | some rels =>
      have hmem : (s, t, ty) ∈ g.idTriples := by
        by_contra hc
        rw [(updateRel_none_iff s t ty p g.Relationships).mpr hc] at hu
        exact Option.noConfusion hu
      rw [if_pos hmem]
      exact updateRel_some_triples s t ty p g.Relationships rels hu
  | none =>
      have hmem : (s, t, ty) ∉ g.idTriples :=
        (updateRel_none_iff s t ty p g.Relationships).mp hu
      rw [if_neg hmem]
      simp [Graph.idTriples, idTriple]

theorem mem_idTriples_AddRelationship (g : Graph) (s t : EntityKey) (ty : String)
    (p : Option PropMap) (x : EntityKey × EntityKey × String) (hx : x ∈ g.idTriples) :
    x ∈ (g.AddRelationship s t ty p).idTriples := by
  rw [idTriples_AddRelationship]
  split
  · exact hx
  · exact List.mem_append_left _ hx

theorem eraseRel_some_triples (s t : EntityKey) (ty : String) :
    ∀ l l2 : List GraphRelationship, eraseRel s t ty l = some l2 →
      ∀ x ∈ l.map idTriple, x ≠ (s, t, ty) → x ∈ l2.map idTriple := by
  intro l
  induction l with
  | nil => intro l2 h; simp [eraseRel] at h
  | cons rel rest ih =>
      intro l2 h x hx hne
      unfold eraseRel at h
      rw [List.map_cons] at hx
      by_cases hm : relIdEq rel s t ty = true
      · rw [if_pos hm] at h
        cases h
        rcases List.mem_cons.mp hx with hh | hh
        · exact absurd (hh ▸ (relIdEq_iff rel s t ty).mp hm) hne
        · exact hh
      · rw [if_neg hm] at h
        cases hu : eraseRel s t ty rest with
        | none => rw [hu] at h; simp at h
        | some rest2 =>
            rw [hu] at h
            simp only [Option.map_some'] at h
            cases h
            rw [List.map_cons]
            rcases List.mem_cons.mp hx with hh | hh
            · exact List.mem_cons.mpr (Or.inl hh)
            · exact List.mem_cons.mpr (Or.inr (ih rest2 hu x hh hne))

/-- `RemoveRelationship` never removes an identity triple of a different
relationship type than the one it is called with. -/
theorem mem_idTriples_RemoveRelationship (g : Graph) (s t : EntityKey) (ty : String)
    (x : EntityKey × EntityKey × String) (hx : x ∈ g.idTriples) (hne : x ≠ (s, t, ty)) :
    x ∈ (g.RemoveRelationship s t ty).idTriples := by
  unfold Graph.RemoveRelationship
  cases hu : eraseRel s t ty g.Relationships with
  | some rels =>
      simpa [Graph.idTriples] using
        eraseRel_some_triples s t ty g.Relationships rels hu x hx hne
  | none => simpa [Graph.idTriples] using hx

theorem AddRelationship_Nodes (g : Graph) (s t : EntityKey) (ty : String) (p : Option PropMap) :
    (g.AddRelationship s t ty p).Nodes = g.Nodes := by
  unfold Graph.AddRelationship
  cases updateRel s t ty p g.Relationships <;> rfl

theorem RemoveRelationship_Nodes (g : Graph) (s t : EntityKey) (ty : String) :
    (g.RemoveRelationship s t ty).Nodes = g.Nodes := by
  unfold Graph.RemoveRelationship
  cases eraseRel s t ty g.Relationships <;> rfl

/-- C1 scenario: pod p1 labelled app:x, then service svc1 selecting app:x
(edge derived), then a Modified event relabelling p1 to app:y. -/
def c1events : List (EventType × K8sTyped) :=
  [(.added, .pod "p1" "default" "Running" "" [("app", "x")] []),
   (.added, .service "svc1" "default" "ClusterIP" [("app", "x")]),
   (.modified, .pod "p1" "default" "Running" "" [("app", "y")] [])]

/-- The graph after the C1 scenario. -/
def c1final : Graph :=
  ((processEvents initialState c1events).map AppState.graph).getD NewGraph

/-- C1: relabelling a targeted Pod so that the Service's selector no longer
matches does NOT remove the targets edge — the Pod case of
`updateRelationships` never touches Service relationships, so the stale edge
survives even though the new labels fail the selector. -/
theorem c1_relabel_keeps_stale_targets_edge :
    (processEvents initialState c1events).isSome = true ∧
    (⟨"svc1", "default", "Service"⟩, ⟨"p1", "default", "Pod"⟩, "targets") ∈ c1final.idTriples ∧
    matchesSelector [("app", Val.str "x")] [("app", Val.str "y")] = false := by
  decide

/-- C2 scenario: pod p1 (on node n1, owned by rs1), then service svc1
targeting it — three edges touch p1 — then a Deleted event for p1. -/
def c2events : List (EventType × K8sTyped) :=
  [(.added, .pod "p1" "default" "Running" "n1" [("app", "x")] [⟨"ReplicaSet", "rs1"⟩]),
   (.added, .service "svc1" "default" "ClusterIP" [("app", "x")]),
   (.deleted, .pod "p1" "default" "Running" "n1" [("app", "x")] [⟨"ReplicaSet", "rs1"⟩])]

/-- The graph after the C2 scenario. -/
def c2final : Graph :=
  ((processEvents initialState c2events).map AppState.graph).getD NewGraph

/-- C2: after the Deleted event for p1 is fully processed the node is gone
but the owned_by edge with p1 as source survives: `RemoveNode` returns before
its cascade loop, and `removeResourceRelationships` skips an element because
it ranges over the slice it is rewriting in place. -/
theorem c2_deleted_node_leaves_dangling_edge :
    (processEvents initialState c2events).isSome = true ∧
    (⟨"p1", "default", "Pod"⟩ : EntityKey) ∉ emitNodeKeys c2final ∧
    c2final.idTriples =
      [(⟨"p1", "default", "Pod"⟩, ⟨"rs1", "default", "ReplicaSet"⟩, "owned_by")] ∧
    c2final.Relationships.any (fun rel => relTouches rel ⟨"p1", "default", "Pod"⟩) = true := by
  decide

/-- C5 scenario, order A: Service before Pod. -/
def c5ordA : List (EventType × K8sTyped) :=
  [(.added, .service "svc1" "default" "ClusterIP" [("app", "x")]),
   (.added, .pod "p1" "default" "Running" "" [("app", "x")] [])]

/-- C5 scenario, order B: Pod before Service. -/
def c5ordB : List (EventType × K8sTyped) :=
  [(.added, .pod "p1" "default" "Running" "" [("app", "x")] []),
   (.added, .service "svc1" "default" "ClusterIP" [("app", "x")])]

/-- C5: the two delivery orders do NOT converge to the same edge set — the
Pod case of `updateRelationships` never derives targets edges, so
Service-before-Pod ends with no edge while Pod-before-Service ends with the
targets edge. -/
theorem c5_cross_kind_order_dependent :
    (processEvents initialState c5ordA).map (fun s => s.graph.idTriples) = some [] ∧
    (processEvents initialState c5ordB).map (fun s => s.graph.idTriples) =
      some [(⟨"svc1", "default", "Service"⟩, ⟨"p1", "default", "Pod"⟩, "targets")] ∧
    (processEvents initialState c5ordA).map (fun s => s.graph.idTriples) ≠
      (processEvents initialState c5ordB).map (fun s => s.graph.idTriples) := by
  decide

/-- A listed pod whose spec carries no nodeName field. -/
def c7podNoNodeName : Val :=
  .vmap [("metadata", .vmap [("name", .str "p2"), ("namespace", .str "default")]),
         ("spec", .vmap [])]

/-- A listed ReplicaSet whose metadata carries no ownerReferences field. -/
def c7rsNoOwnerRefs : Val :=
  .vmap [("metadata", .vmap [("name", .str "rs2"), ("namespace", .str "default")]),
         ("spec", .vmap [])]

/-- A listed Deployment whose pod template carries no volumes list. -/
def c7depNoVolumes : Val :=
  .vmap [("metadata", .vmap [("name", .str "d2"), ("namespace", .str "default")]),
         ("spec", .vmap [("template", .vmap [("spec", .vmap [])])])]

/-- A fully-populated listed pod, for contrast. -/
def c7podComplete : Val :=
  .vmap [("metadata", .vmap [("name", .str "p3"), ("namespace", .str "default")]),
         ("spec", .vmap [("nodeName", .str "n1")])]

/-- C7: a Pod without a nodeName, a ReplicaSet without ownerReferences or a
Deployment without a volumes list makes `listAllResources` panic (failed
non-comma-ok type assertion), halting the listing instead of skipping the
rule; the same listing succeeds once the field is present. -/
theorem c7_malformed_field_panics_listing :
    (listAllResources [c7podNoNodeName] [] [] [] [] [] NewGraph [] []).isNone = true ∧
    (listAllResources [] [c7rsNoOwnerRefs] [] [] [] [] NewGraph [] []).isNone = true ∧
    (listAllResources [] [] [c7depNoVolumes] [] [] [] NewGraph [] []).isNone = true ∧
    (listAllResources [c7podComplete] [] [] [] [] [] NewGraph [] []).isSome = true := by
  decide

/-- C3 scenario: pod p1 assigned to node n1, then a Modified event
re-assigning it to node n2. -/
def c3events : List (EventType × K8sTyped) :=
  [(.added, .pod "p1" "default" "Running" "n1" [] []),
   (.modified, .pod "p1" "default" "Running" "n2" [] [])]

/-- The graph after the C3 scenario. -/
def c3final : Graph :=
  ((processEvents initialState c3events).map AppState.graph).getD NewGraph

/-- C3 counterexample: after the node assignment changes, TWO runs_on edges
with the same (source, relationshipType) pair coexist — the old edge is not
retracted when the new one is added. -/
theorem c3_counterexample_two_runs_on_edges :
    (processEvents initialState c3events).isSome = true ∧
    c3final.Relationships.countP
      (fun rel => keyEq rel.Source ⟨"p1", "default", "Pod"⟩ && rel.RelationshipType == "runs_on") = 2 ∧
    c3final.idTriples =
      [(⟨"p1", "default", "Pod"⟩, ⟨"n1", "", "Node"⟩, "runs_on"),
       (⟨"p1", "default", "Pod"⟩, ⟨"n2", "", "Node"⟩, "runs_on")] := by
  decide

/-- C4 scenario: one listed pod with labels app:x and one listed service
whose spec carries an explicitly empty selector map. -/
def c4pod : Val :=
  .vmap [("metadata", .vmap [("name", .str "p1"), ("namespace", .str "default"),
                             ("labels", .vmap [("app", .str "x")])]),
         ("spec", .vmap [("nodeName", .str "n1")])]

/-- The C4 service with an empty selector map. -/
def c4svc : Val :=
  .vmap [("metadata", .vmap [("name", .str "svc1"), ("namespace", .str "default")]),
         ("spec", .vmap [("selector", .vmap [])])]

/-- The graph produced by listing the C4 inputs. -/
def c4final : Graph :=
  ((listAllResources [c4pod] [] [] [] [c4svc] [] NewGraph [] []).map
    (fun r => r.1)).getD NewGraph

/-- C4 counterexample: a Service whose selector map is empty derives a
targets edge to a Pod — the match loop leaves `matches` true when there is
nothing to check, so an empty selector matches every pod rather than none. -/
theorem c4_counterexample_empty_selector_matches :
    (listAllResources [c4pod] [] [] [] [c4svc] [] NewGraph [] []).isSome = true ∧
    (⟨"svc1", "default", "Service"⟩, ⟨"p1", "default", "Pod"⟩, "targets") ∈ c4final.idTriples ∧
    matchesSelector [] [("app", Val.str "x")] = true := by
  decide

/-- C6 scenario: one Added event for a pod assigned to node n1. -/
def c6addEvent : EventType × K8sTyped :=
  (.added, .pod "p1" "default" "Running" "n1" [] [])

/-- C6 counterexample: applying the same Added event twice yields the same
node list but NOT the identical edge set — the duplicate add bumps the
runs_on edge's revision from 1 to 2. -/
theorem c6_counterexample_revision_bump :
    (processEvents initialState [c6addEvent]).map (fun s => s.graph.Relationships) =
      some [⟨⟨"p1", "default", "Pod"⟩, ⟨"n1", "", "Node"⟩, "runs_on", none, 1⟩] ∧
    (processEvents initialState [c6addEvent, c6addEvent]).map (fun s => s.graph.Relationships) =
      some [⟨⟨"p1", "default", "Pod"⟩, ⟨"n1", "", "Node"⟩, "runs_on", none, 2⟩] ∧
    (processEvents initialState [c6addEvent, c6addEvent]).map (fun s => s.graph.Nodes) =
      (processEvents initialState [c6addEvent]).map (fun s => s.graph.Nodes) ∧
    (processEvents initialState [c6addEvent, c6addEvent]).map (fun s => s.graph.Relationships) ≠
      (processEvents initialState [c6addEvent]).map (fun s => s.graph.Relationships) := by
  decide

/-- C8 scenario: two pods added in the order b then a. -/
def c8graph : Graph :=
  (((NewGraph.AddNode (.typed (.pod "b" "default" "Running" "" [] []))).bind
    (fun g => g.AddNode (.typed (.pod "a" "default" "Running" "" [] [])))).getD NewGraph)

/-- C8 counterexample: the emitted snapshot lists nodes in insertion order,
not in the spec's EntityKey total order — adding b then a emits [b, a],
which is not sorted. -/
theorem c8_counterexample_unsorted_emission :
    ((NewGraph.AddNode (.typed (.pod "b" "default" "Running" "" [] []))).bind
      (fun g => g.AddNode (.typed (.pod "a" "default" "Running" "" [] [])))).isSome = true ∧
    emitNodeKeys c8graph = [⟨"b", "default", "Pod"⟩, ⟨"a", "default", "Pod"⟩] ∧
    specSorted (emitNodeKeys c8graph) = false := by
  decide

/-- A sequence of `AddRelationship` calls applied in order. -/
def applyAdds (g : Graph) : List (EntityKey × EntityKey × String × Option PropMap) → Graph
  | [] => g
  | (s, t, ty, p) :: rest => applyAdds (g.AddRelationship s t ty p) rest

theorem nodup_idTriples_AddRelationship (g : Graph) (s t : EntityKey) (ty : String)
    (p : Option PropMap) (h : g.idTriples.Nodup) :
    (g.AddRelationship s t ty p).idTriples.Nodup := by
  rw [idTriples_AddRelationship]
  by_cases hm : (s, t, ty) ∈ g.idTriples
  · rwa [if_pos hm]
  · rw [if_neg hm]
    refine List.Nodup.append h (List.nodup_singleton _) ?_
    intro a ha hax
    rw [List.mem_singleton] at hax
    exact hm (hax ▸ ha)

/-- C9: over every sequence of edge additions starting from the empty graph,
the identity triples stay pairwise distinct (no parallel duplicate edges);
and a single `AddRelationship` whose identity already exists leaves the
triple sequence unchanged (in-place update) while a fresh identity is
appended. -/
theorem c9_at_most_one_edge_per_identity :
    (∀ adds : List (EntityKey × EntityKey × String × Option PropMap),
        ((applyAdds NewGraph adds).idTriples).Nodup) ∧
    (∀ (g : Graph) (s t : EntityKey) (ty : String) (p : Option PropMap),
        (g.AddRelationship s t ty p).idTriples =
          if (s, t, ty) ∈ g.idTriples then g.idTriples else g.idTriples ++ [(s, t, ty)]) := by
  constructor
  · have aux : ∀ (adds : List (EntityKey × EntityKey × String × Option PropMap)) (g : Graph),
        g.idTriples.Nodup → ((applyAdds g adds).idTriples).Nodup := by
      intro adds
      induction adds with
      | nil => intro g h; exact h
      | cons a rest ih =>
          intro g h
          obtain ⟨s, t, ty, p⟩ := a
          exact ih _ (nodup_idTriples_AddRelationship g s t ty p h)
    intro adds
    exact aux adds NewGraph (by simp [NewGraph, Graph.idTriples])
  · exact idTriples_AddRelationship

theorem eraseRel_none_iff (s t : EntityKey) (ty : String) :
    ∀ l : List GraphRelationship,
      eraseRel s t ty l = none ↔ ∀ rel ∈ l, relIdEq rel s t ty = false := by
  intro l
  induction l with
  | nil => simp [eraseRel]
  | cons rel rest ih =>
      unfold eraseRel
      by_cases hm : relIdEq rel s t ty = true
      · rw [if_pos hm]
        constructor
        · intro h; cases h
        · intro h
          have hf := h rel (List.mem_cons_self rel rest)
          rw [hm] at hf
          cases hf
      · rw [if_neg hm, Option.map_eq_none']
        rw [ih]
        constructor
        · intro h r hr
          rcases List.mem_cons.mp hr with rfl | hr2
          · exact Bool.eq_false_iff.mpr hm
          · exact h r hr2
        · intro h r hr
          exact h r (List.mem_cons.mpr (Or.inr hr))

theorem eraseRel_first (s t : EntityKey) (ty : String) :
    ∀ (l1 : List GraphRelationship) (rel : GraphRelationship) (l2 : List GraphRelationship),
      (∀ x ∈ l1, relIdEq x s t ty = false) → relIdEq rel s t ty = true →
      eraseRel s t ty (l1 ++ rel :: l2) = some (l1 ++ l2) := by
  intro l1
  induction l1 with
  | nil =>
      intro rel l2 _ hm
      rw [List.nil_append, List.nil_append]
      simp only [eraseRel]
      rw [if_pos hm]
  | cons x rest ih =>
      intro rel l2 h hm
      have hx : relIdEq x s t ty = false := h x (List.mem_cons_self x rest)
      rw [List.cons_append]
      simp only [eraseRel]
      rw [if_neg (by simp [hx])]
      rw [ih rel l2 (fun y hy => h y (List.mem_cons.mpr (Or.inr hy))) hm]
      rfl

/-- C10: `RemoveRelationship` leaves the node set unchanged; when no
relationship matches the identity triple the graph is left entirely
unchanged; and when the relationship list decomposes as
prefix-without-match ++ first-match :: suffix, exactly that first match is
removed and every other relationship survives in order. -/
theorem c10_remove_relationship_frame (g : Graph) (s t : EntityKey) (ty : String) :
    (g.RemoveRelationship s t ty).Nodes = g.Nodes ∧
    ((∀ rel ∈ g.Relationships, relIdEq rel s t ty = false) → g.RemoveRelationship s t ty = g) ∧
    (∀ (l1 : List GraphRelationship) (rel : GraphRelationship) (l2 : List GraphRelationship),
        g.Relationships = l1 ++ rel :: l2 →
        (∀ x ∈ l1, relIdEq x s t ty = false) → relIdEq rel s t ty = true →
        (g.RemoveRelationship s t ty).Relationships = l1 ++ l2) := by
  refine ⟨RemoveRelationship_Nodes g s t ty, ?_, ?_⟩
  · intro h
    unfold Graph.RemoveRelationship
    rw [(eraseRel_none_iff s t ty g.Relationships).mpr h]
  · intro l1 rel l2 hdec h1 hm
    unfold Graph.RemoveRelationship
    rw [hdec, eraseRel_first s t ty l1 rel l2 h1 hm]

/-- The edge a C10 removal matches. -/
def c10match : GraphRelationship :=
  ⟨⟨"svc1", "default", "Service"⟩, ⟨"p1", "default", "Pod"⟩, "targets", none, 1⟩

/-- Another edge a C10 removal must not touch. -/
def c10other : GraphRelationship :=
  ⟨⟨"p1", "default", "Pod"⟩, ⟨"n1", "", "Node"⟩, "runs_on", none, 1⟩

/-- A two-edge graph for exercising removal. -/
def c10demo : Graph := { Nodes := [], Relationships := [c10match, c10other], revision := 1 }

/-- A graph with no matching edge for exercising the no-op case. -/
def c10demoAbsent : Graph := { Nodes := [], Relationships := [c10other], revision := 1 }

theorem c10_remove_relationship_frame_witness :
    (c10demo.RemoveRelationship ⟨"svc1", "default", "Service"⟩ ⟨"p1", "default", "Pod"⟩
        "targets").Relationships = [c10other] ∧
    c10demoAbsent.RemoveRelationship ⟨"svc1", "default", "Service"⟩ ⟨"p1", "default", "Pod"⟩
        "targets" = c10demoAbsent := by
  constructor
  · exact (c10_remove_relationship_frame c10demo ⟨"svc1", "default", "Service"⟩
      ⟨"p1", "default", "Pod"⟩ "targets").2.2 [] c10match [c10other] rfl (by decide) (by decide)
  · exact (c10_remove_relationship_frame c10demoAbsent ⟨"svc1", "default", "Service"⟩
      ⟨"p1", "default", "Pod"⟩ "targets").2.1 (by decide)

theorem ownerRefsLoop_preserves (src : EntityKey) (wk : String) :
    ∀ (refs : List Val) (g g' : Graph), ownerRefsLoop src wk g refs = some g' →
      ∀ x ∈ g.idTriples, x ∈ g'.idTriples := by
  intro refs
  induction refs with
  | nil =>
      intro g g' h x hx
      simp only [ownerRefsLoop] at h
      cases h
      exact hx
  | cons r rest ih =>
      intro g g' h x hx
      simp only [ownerRefsLoop] at h
      split at h
      · exact absurd h (by simp)
      · split at h
        · exact absurd h (by simp)
        · split at h
          · split at h
            · exact absurd h (by simp)
            · exact ih _ g' h x (mem_idTriples_AddRelationship _ _ _ _ _ x hx)
          · exact ih _ g' h x hx

theorem volumesLoop_preserves (dep : EntityKey) :
    ∀ (volumes : List Val) (g g' : Graph), volumesLoop dep g volumes = some g' →
      ∀ x ∈ g.idTriples, x ∈ g'.idTriples := by
  intro volumes
  induction volumes with
  | nil =>
      intro g g' h x hx
      simp only [volumesLoop] at h
      cases h
      exact hx
  | cons v rest ih =>
      intro g g' h x hx
      simp only [volumesLoop] at h
      split at h
      · exact absurd h (by simp)
      · split at h
        · exact ih _ g' h x hx
        · split at h
          · exact absurd h (by simp)
          · split at h
            · exact absurd h (by simp)
            · exact ih _ g' h x (mem_idTriples_AddRelationship _ _ _ _ _ x hx)

theorem svcPodLoop_preserves_nontargets (svc : EntityKey) (selector : UMap) :
    ∀ (cache : List (String × UMap)) (g g' : Graph), svcPodLoop svc selector g cache = some g' →
      ∀ x ∈ g.idTriples, x.2.2 ≠ "targets" → x ∈ g'.idTriples := by
  intro cache
  induction cache with
  | nil =>
      intro g g' h x hx _
      simp only [svcPodLoop] at h
      cases h
      exact hx
  | cons e rest ih =>
      intro g g' h x hx hty
      simp only [svcPodLoop] at h
      split at h
      · exact absurd h (by simp)
      · split at h
        · exact absurd h (by simp)
        · split at h
          · exact absurd h (by simp)
          · split at h
            · exact absurd h (by simp)
            · split at h
              · exact ih _ g' h x (mem_idTriples_AddRelationship _ _ _ _ _ x hx) hty
              · refine ih _ g' h x ?_ hty
                exact mem_idTriples_RemoveRelationship _ _ _ _ x hx
                  (fun he => hty (by rw [he]))

/-- A conditional `AddRelationship` preserves every existing identity
triple. -/
theorem ifAdd_preserves (cond : Prop) [Decidable cond] (g : Graph) (s t : EntityKey)
    (ty : String) (p : Option PropMap) (x : EntityKey × EntityKey × String)
    (hx : x ∈ g.idTriples) :
    x ∈ (if cond then g.AddRelationship s t ty p else g).idTriples := by
  by_cases hc : cond
  · rw [if_pos hc]
    exact mem_idTriples_AddRelationship _ _ _ _ _ x hx
  · rw [if_neg hc]
    exact hx

/-- C3 amended: `updateRelationships` never retracts a relationship of any
type other than targets — every such identity triple present before the
update is still present after, so a changed single-valued field accumulates
a second edge with the same (source, relationshipType) instead of replacing
the old one. -/
theorem c3_update_preserves_non_targets_edges (g : Graph) (obj : UMap)
    (resourceType name ns : String) (cache : List (String × UMap)) (g' : Graph)
    (h : updateRelationships g obj resourceType name ns cache = some g')
    (x : EntityKey × EntityKey × String) (hx : x ∈ g.idTriples) (hty : x.2.2 ≠ "targets") :
    x ∈ g'.idTriples := by
  unfold updateRelationships at h
  split_ifs at h
  · -- Pod case
    split at h
    · exact absurd h (by simp)
    · split at h
      · -- nodeName extracted
        simp only [] at h
        split at h
        · exact absurd h (by simp)
        · split at h
          · cases h
            exact ifAdd_preserves _ g _ _ _ _ x hx
          · exact ownerRefsLoop_preserves ⟨name, ns, "Pod"⟩ "ReplicaSet" _ _ g' h x
              (ifAdd_preserves _ g _ _ _ _ x hx)
      · -- nodeName assertion failed, g1 = g
        simp only [] at h
        split at h
        · exact absurd h (by simp)
        · split at h
          · cases h
            exact hx
          · exact ownerRefsLoop_preserves ⟨name, ns, "Pod"⟩ "ReplicaSet" _ _ g' h x hx
  · -- ReplicaSet case
    split at h
    · exact absurd h (by simp)
    · split at h
      · cases h
        exact hx
      · exact ownerRefsLoop_preserves ⟨name, ns, "ReplicaSet"⟩ "Deployment" _ g g' h x hx
  · -- Service case
    split at h
    · exact absurd h (by simp)
    · split at h
      · cases h
        exact hx
      · exact svcPodLoop_preserves_nontargets ⟨name, ns, "Service"⟩ _ cache g g' h x hx hty
  · -- Deployment case
    split at h
    · exact absurd h (by simp)
    · split at h
      · exact absurd h (by simp)
      · split at h
        · exact absurd h (by simp)
        · split at h
          · cases h
            exact hx
          · exact volumesLoop_preserves ⟨name, ns, "Deployment"⟩ _ g g' h x hx
  · -- every other kind
    cases h
    exact hx

/-- A graph holding one runs_on edge for the C3 witness. -/
def c3witnessGraph : Graph :=
  { Nodes := [], Relationships := [⟨⟨"p1", "default", "Pod"⟩, ⟨"n1", "", "Node"⟩, "runs_on", none, 1⟩],
    revision := 1 }

theorem matchesSelector_iff (selector labels : UMap) :
    matchesSelector selector labels = true ↔ ∀ kv ∈ selector, mget labels kv.1 = kv.2 := by
  unfold matchesSelector
  rw [List.all_eq_true]
  constructor
  · intro h kv hkv
    exact (Val.beq_iff _ _).mp (h kv hkv)
  · intro h kv hkv
    exact (Val.beq_iff _ _).mpr (h kv hkv)

/-- The (name, namespace) identity the Service case of `updateRelationships`
extracts from a cached pod. -/
def podIdent (pod : UMap) : Option (String × String) :=
  match (mget pod "metadata").asMap with
  | none => none
  | some pmeta =>
      match (mget pmeta "name").asStr with
      | none => none
      | some podName =>
          match (mget pmeta "namespace").asStr with
          | none => none
          | some podNamespace => some (podName, podNamespace)

theorem mem_self_idTriples_AddRelationship (g : Graph) (s t : EntityKey) (ty : String)
    (p : Option PropMap) : (s, t, ty) ∈ (g.AddRelationship s t ty p).idTriples := by
  rw [idTriples_AddRelationship]
  by_cases hm : (s, t, ty) ∈ g.idTriples
  · rwa [if_pos hm]
  · rw [if_neg hm]
    exact List.mem_append_right _ (List.mem_singleton.mpr rfl)

theorem svcPodLoop_empty_preserves (svc : EntityKey) :
    ∀ (cache : List (String × UMap)) (g g' : Graph), svcPodLoop svc [] g cache = some g' →
      ∀ x ∈ g.idTriples, x ∈ g'.idTriples := by
  intro cache
  induction cache with
  | nil =>
      intro g g' h x hx
      simp only [svcPodLoop] at h
      cases h
      exact hx
  | cons e rest ih =>
      intro g g' h x hx
      simp only [svcPodLoop] at h
      split at h
      · exact absurd h (by simp)
      · split at h
        · exact absurd h (by simp)
        · split at h
          · exact absurd h (by simp)
          · split at h
            · exact absurd h (by simp)
            · split at h
              · exact ih _ g' h x (mem_idTriples_AddRelationship _ _ _ _ _ x hx)
              · rename_i hcond
                exact absurd rfl hcond

theorem svcPodLoop_empty_adds (svc : EntityKey) :
    ∀ (cache : List (String × UMap)) (g g' : Graph), svcPodLoop svc [] g cache = some g' →
      ∀ e ∈ cache, ∀ pn pns, podIdent e.2 = some (pn, pns) →
        (svc, ⟨pn, pns, "Pod"⟩, "targets") ∈ g'.idTriples := by
  intro cache
  induction cache with
  | nil =>
      intro g g' _ e he
      exact absurd he (List.not_mem_nil e)
  | cons hd rest ih =>
      intro g g' h e he pn pns hpid
      simp only [svcPodLoop] at h
      split at h
      · exact absurd h (by simp)
      · rename_i pmeta hmeta
        split at h
        · exact absurd h (by simp)
        · rename_i podName hname
          split at h
          · exact absurd h (by simp)
          · rename_i podNamespace hns
            split at h
            · exact absurd h (by simp)
            · rename_i podLabels hlabels
              split at h
              · rcases List.mem_cons.mp he with rfl | he2
                · -- the head entry: its edge is added, then preserved
                  have hpid2 : podIdent e.2 = some (podName, podNamespace) := by
                    simp only [podIdent, hmeta, hname, hns]
                  rw [hpid] at hpid2
                  injection hpid2 with hpair
                  injection hpair.symm with h1 h2
                  subst h1
                  subst h2
                  exact svcPodLoop_empty_preserves svc rest _ g' h _
                    (mem_self_idTriples_AddRelationship _ _ _ _ _)
                · exact ih _ g' h e he2 pn pns hpid
              · rename_i hcond
                exact absurd rfl hcond

/-- C4 amended: selector matching requires every selector pair to appear
identically in the label map; but an empty selector matches EVERY pod — a
Service processed with a present-and-empty selector map derives a targets
edge to every cached pod, not to none. -/
theorem c4_selector_semantics :
    (∀ selector labels : UMap,
        matchesSelector selector labels = true ↔ ∀ kv ∈ selector, mget labels kv.1 = kv.2) ∧
    (∀ (g : Graph) (obj spec : UMap) (name ns : String) (cache : List (String × UMap)) (g' : Graph),
        (mget obj "spec").asMap = some spec →
        (mget spec "selector").asMap = some [] →
        updateRelationships g obj "Service" name ns cache = some g' →
        ∀ e ∈ cache, ∀ pn pns, podIdent e.2 = some (pn, pns) →
          (⟨name, ns, "Service"⟩, ⟨pn, pns, "Pod"⟩, "targets") ∈ g'.idTriples) := by
  constructor
  · exact matchesSelector_iff
  · intro g obj spec name ns cache g' hspec hsel h e he pn pns hpid
    unfold updateRelationships at h
    rw [if_neg (by decide : ¬("Service" = "Pod")),
        if_neg (by decide : ¬("Service" = "ReplicaSet")),
        if_pos (rfl : "Service" = "Service")] at h
    split at h
    · rename_i heq
      rw [hspec] at heq
      cases heq
    · rename_i spec2 heq
      rw [hspec] at heq
      injection heq with heq2
      subst heq2
      split at h
      · rename_i heq3
        rw [hsel] at heq3
        cases heq3
      · rename_i sel heq3
        rw [hsel] at heq3
        injection heq3 with heq4
        subst heq4
        exact svcPodLoop_empty_adds ⟨name, ns, "Service"⟩ cache g g' h e he pn pns hpid

/-- The C4 witness service object: spec with an explicitly empty selector. -/
def c4wSvcObj : UMap :=
  [("metadata", .vmap [("name", .str "svc1"), ("namespace", .str "default")]),
   ("spec", .vmap [("selector", .vmap [])])]

/-- The C4 witness pod cache entry. -/
def c4wPod : UMap :=
  [("metadata", .vmap [("name", .str "p1"), ("namespace", .str "default"),
                       ("labels", .vmap [("app", .str "x")])])]

/-- The graph after processing the C4 witness service. -/
def c4wFinal : Graph :=
  (updateRelationships NewGraph c4wSvcObj "Service" "svc1" "default"
    [("default/p1", c4wPod)]).getD NewGraph

theorem c4_selector_semantics_witness :
    (⟨"svc1", "default", "Service"⟩, ⟨"p1", "default", "Pod"⟩, "targets") ∈ c4wFinal.idTriples :=
  c4_selector_semantics.2 NewGraph c4wSvcObj [("selector", Val.vmap [])] "svc1" "default"
    [("default/p1", c4wPod)] c4wFinal rfl rfl rfl ("default/p1", c4wPod)
    (List.mem_singleton.mpr rfl) "p1" "default" rfl

theorem replaceNode_none_iff (node : GraphNode) :
    ∀ l : List GraphNode, replaceNode node l = none ↔ ∀ n ∈ l, keyEq n.Key node.Key = false := by
  intro l
  induction l with
  | nil => simp [replaceNode]
  | cons n rest ih =>
      unfold replaceNode
      by_cases hm : keyEq n.Key node.Key = true
      · rw [if_pos hm]
        constructor
        · intro h; cases h
        · intro h
          have hf := h n (List.mem_cons_self n rest)
          rw [hm] at hf
          cases hf
      · rw [if_neg hm, Option.map_eq_none']
        rw [ih]
        constructor
        · intro h n2 hn2
          rcases List.mem_cons.mp hn2 with rfl | hn3
          · exact Bool.eq_false_iff.mpr hm
          · exact h n2 hn3
        · intro h n2 hn2
          exact h n2 (List.mem_cons.mpr (Or.inr hn2))

/-- C8 amended: the emitted snapshot lists nodes and edges in the store's
insertion order — a new node or edge is appended after all existing ones,
and no reordering by EntityKey happens. -/
theorem c8_snapshot_insertion_order (g : Graph) (obj : GoObj) (node : GraphNode) (g2 : Graph)
    (s t : EntityKey) (ty : String) (p : Option PropMap)
    (hobj : objectToGraphNode obj = some (some node))
    (hfresh : node.Key ∉ emitNodeKeys g)
    (hadd : g.AddNode obj = some g2)
    (htfresh : (s, t, ty) ∉ g.idTriples) :
    emitNodeKeys g2 = emitNodeKeys g ++ [node.Key] ∧
    emitRelIds (g.AddRelationship s t ty p) = emitRelIds g ++ [(s, t, ty)] := by
  constructor
  · have hrep : replaceNode node g.Nodes = none := by
      rw [replaceNode_none_iff]
      intro n hn
      refine Bool.eq_false_iff.mpr (fun hk => ?_)
      have hkey : n.Key = node.Key := (keyEq_iff _ _).mp hk
      exact hfresh (hkey ▸ List.mem_map_of_mem (fun m => m.Key) hn)
    simp only [Graph.AddNode, hobj, hrep] at hadd
    injection hadd with hadd2
    rw [← hadd2]
    unfold emitNodeKeys
    rw [List.map_append]
    rfl
  · show (g.AddRelationship s t ty p).idTriples = g.idTriples ++ [(s, t, ty)]
    rw [idTriples_AddRelationship, if_neg htfresh]

/-- The C8 witness start graph: one Node already present. -/
def c8wStart : Graph :=
  (NewGraph.AddNode (.typed (.node "n1" "Ready"))).getD NewGraph

/-- The C8 witness graph after adding a pod. -/
def c8wAfter : Graph :=
  (c8wStart.AddNode (.typed (.pod "p1" "default" "Running" "" [] []))).getD NewGraph

theorem c8_snapshot_insertion_order_witness :
    emitNodeKeys c8wAfter = emitNodeKeys c8wStart ++ [⟨"p1", "default", "Pod"⟩] ∧
    emitRelIds (c8wStart.AddRelationship ⟨"p1", "default", "Pod"⟩ ⟨"n1", "", "Node"⟩
        "runs_on" none) =
      emitRelIds c8wStart ++ [(⟨"p1", "default", "Pod"⟩, ⟨"n1", "", "Node"⟩, "runs_on")] :=
  c8_snapshot_insertion_order c8wStart (.typed (.pod "p1" "default" "Running" "" [] []))
    ⟨⟨"p1", "default", "Pod"⟩, [("status", "Running")], 1⟩ c8wAfter
    ⟨"p1", "default", "Pod"⟩ ⟨"n1", "", "Node"⟩ "runs_on" none
    rfl (by decide) rfl (by decide)

theorem c3_update_preserves_non_targets_edges_witness :
    (⟨"p1", "default", "Pod"⟩, ⟨"n1", "", "Node"⟩, "runs_on") ∈
      (((updateRelationships c3witnessGraph
          (toUnstructured (.pod "p1" "default" "Running" "n2" [] []))
          "Pod" "p1" "default" []).getD NewGraph)).idTriples := by
  refine c3_update_preserves_non_targets_edges c3witnessGraph
    (toUnstructured (.pod "p1" "default" "Running" "n2" [] [])) "Pod" "p1" "default" []
    _ rfl _ (by decide) (by decide)

/-- A relationship with its revision counter forgotten: identity triple plus
properties. -/
structure SRel where
  Source : EntityKey
  Target : EntityKey
  RelationshipType : String
  Properties : Option PropMap
deriving DecidableEq

/-- Forget the revision counter of a relationship. -/
def stripRel (r : GraphRelationship) : SRel :=
  ⟨r.Source, r.Target, r.RelationshipType, r.Properties⟩

/-- The graph's relationships up to revision counters. -/
def Graph.srels (g : Graph) : List SRel := g.Relationships.map stripRel

/-- The whole application state up to revision counters. -/
def stripState (s : AppState) :
    List GraphNode × List SRel × List (String × UMap) × List (String × UMap) :=
  (s.graph.Nodes, s.graph.srels, s.podCache, s.serviceCache)

/-- The identity comparison on stripped relationships. -/
def relIdEqS (rel : SRel) (source target : EntityKey) (relationshipType : String) : Bool :=
  keyEq rel.Source source && keyEq rel.Target target && rel.RelationshipType == relationshipType

/-- The identity triple of a stripped relationship. -/
def tripleS (r : SRel) : EntityKey × EntityKey × String :=
  (r.Source, r.Target, r.RelationshipType)

theorem relIdEqS_iff (rel : SRel) (s t : EntityKey) (ty : String) :
    relIdEqS rel s t ty = true ↔ tripleS rel = (s, t, ty) := by
  simp [relIdEqS, tripleS, Bool.and_eq_true, keyEq_iff, Prod.ext_iff, and_assoc]

/-- One edge mutation issued by `updateRelationships` (every call site passes
nil properties, so properties are not part of the op). -/
inductive EdgeOp where
  | add (s t : EntityKey) (ty : String)
  | remove (s t : EntityKey) (ty : String)
deriving DecidableEq

/-- The identity triple an op refers to. -/
def EdgeOp.triple : EdgeOp → EntityKey × EntityKey × String
  | .add s t ty => (s, t, ty)
  | .remove s t ty => (s, t, ty)

/-- Whether the op is an addition. -/
def EdgeOp.isAdd : EdgeOp → Bool
  | .add .. => true
  | .remove .. => false

/-- Run one op on the graph store. -/
def EdgeOp.run : EdgeOp → Graph → Graph
  | .add s t ty, g => g.AddRelationship s t ty none
  | .remove s t ty, g => g.RemoveRelationship s t ty

/-- Run a list of ops on the graph store, in order. -/
def applyOps (ops : List EdgeOp) (g : Graph) : Graph :=
  ops.foldl (fun g o => o.run g) g

/-- `AddRelationship` with nil properties on stripped relationships: update
the first identity match in place, or append. -/
def addS (s t : EntityKey) (ty : String) : List SRel → List SRel
  | [] => [⟨s, t, ty, none⟩]
  | r :: rest =>
      if relIdEqS r s t ty then { r with Properties := none } :: rest
      else r :: addS s t ty rest

/-- `RemoveRelationship` on stripped relationships: erase the first identity
match. -/
def removeS (s t : EntityKey) (ty : String) : List SRel → List SRel
  | [] => []
  | r :: rest =>
      if relIdEqS r s t ty then rest
      else r :: removeS s t ty rest

/-- Run one op on stripped relationships. -/
def EdgeOp.runS : EdgeOp → List SRel → List SRel
  | .add s t ty, l => addS s t ty l
  | .remove s t ty, l => removeS s t ty l

/-- Run a list of ops on stripped relationships, in order. -/
def applyOpsS (ops : List EdgeOp) (l : List SRel) : List SRel :=
  ops.foldl (fun l o => o.runS l) l

theorem relIdEqS_stripRel (r : GraphRelationship) (s t : EntityKey) (ty : String) :
    relIdEqS (stripRel r) s t ty = relIdEq r s t ty := rfl

theorem srels_AddRelationship (g : Graph) (s t : EntityKey) (ty : String) :
    (g.AddRelationship s t ty none).srels = addS s t ty g.srels := by
  have main : ∀ l : List GraphRelationship,
      (match updateRel s t ty none l with
       | some rels => rels
       | none => l ++ [({ Source := s, Target := t, RelationshipType := ty,
                          Properties := none, Revision := 1 } : GraphRelationship)]).map stripRel
        = addS s t ty (l.map stripRel) := by
    intro l
    induction l with
    | nil => simp [updateRel, addS, stripRel]
    | cons r rest ih =>
        unfold updateRel
        by_cases hm : relIdEq r s t ty = true
        · rw [if_pos hm]
          simp only [List.map_cons, addS]
          rw [if_pos (by rw [relIdEqS_stripRel]; exact hm)]
          rfl
        · rw [if_neg hm]
          simp only [List.map_cons, addS]
          rw [if_neg (by rw [relIdEqS_stripRel]; exact hm)]
          cases hu : updateRel s t ty none rest with
          | none =>
              simp only [hu, Option.map_none'] at ih ⊢
              rw [List.cons_append, List.map_cons, ih]
          | some rest2 =>
              simp only [hu, Option.map_some'] at ih ⊢
              rw [List.map_cons, ih]
  unfold Graph.AddRelationship Graph.srels
  cases hu : updateRel s t ty none g.Relationships with
  | some rels =>
      have := main g.Relationships
      rw [hu] at this
      exact this
  | none =>
      have := main g.Relationships
      rw [hu] at this
      exact this

theorem srels_RemoveRelationship (g : Graph) (s t : EntityKey) (ty : String) :
    (g.RemoveRelationship s t ty).srels = removeS s t ty g.srels := by
  have main : ∀ l : List GraphRelationship,
      (match eraseRel s t ty l with
       | some rels => rels
       | none => l).map stripRel = removeS s t ty (l.map stripRel) := by
    intro l
    induction l with
    | nil => simp [eraseRel, removeS]
    | cons r rest ih =>
        unfold eraseRel
        by_cases hm : relIdEq r s t ty = true
        · rw [if_pos hm]
          simp only [List.map_cons, removeS]
          rw [if_pos (by rw [relIdEqS_stripRel]; exact hm)]
        · rw [if_neg hm]
          simp only [List.map_cons, removeS]
          rw [if_neg (by rw [relIdEqS_stripRel]; exact hm)]
          cases hu : eraseRel s t ty rest with
          | none =>
              rw [hu] at ih
              simp only [hu, Option.map_none'] at ih ⊢
              rw [List.map_cons, ← ih]
          | some rest2 =>
              rw [hu] at ih
              simp only [hu, Option.map_some'] at ih ⊢
              rw [List.map_cons, ← ih]
  unfold Graph.RemoveRelationship Graph.srels
  cases hu : eraseRel s t ty g.Relationships with
  | some rels =>
      have := main g.Relationships
      rw [hu] at this
      exact this
  | none =>
      have := main g.Relationships
      rw [hu] at this
      exact this

theorem srels_run (o : EdgeOp) (g : Graph) : (o.run g).srels = o.runS g.srels := by
  cases o with
  | add s t ty => exact srels_AddRelationship g s t ty
  | remove s t ty => exact srels_RemoveRelationship g s t ty

theorem run_Nodes (o : EdgeOp) (g : Graph) : (o.run g).Nodes = g.Nodes := by
  cases o with
  | add s t ty => exact AddRelationship_Nodes g s t ty none
  | remove s t ty => exact RemoveRelationship_Nodes g s t ty

theorem srels_applyOps (ops : List EdgeOp) : ∀ g : Graph,
    (applyOps ops g).srels = applyOpsS ops g.srels := by
  induction ops with
  | nil => intro g; rfl
  | cons o rest ih =>
      intro g
      show (applyOps rest (o.run g)).srels = applyOpsS rest (o.runS g.srels)
      rw [ih (o.run g), srels_run]

theorem applyOps_Nodes (ops : List EdgeOp) : ∀ g : Graph, (applyOps ops g).Nodes = g.Nodes := by
  induction ops with
  | nil => intro g; rfl
  | cons o rest ih =>
      intro g
      show (applyOps rest (o.run g)).Nodes = g.Nodes
      rw [ih (o.run g), run_Nodes]

/-- The edge ops emitted by one `ownerReferences` loop, in loop order. -/
def ownerRefsOps (source : EntityKey) (wantKind : String) : List Val → Option (List EdgeOp)
  | [] => some []
  | r :: rest =>
      match r.asMap with
      | none => none
      | some owner =>
          match (mget owner "kind").asStr with
          | none => none
          | some kind =>
              if kind = wantKind then
                match (mget owner "name").asStr with
                | none => none
                | some oname =>
                    (ownerRefsOps source wantKind rest).map
                      (fun ops => EdgeOp.add source ⟨oname, source.Ns, wantKind⟩ "owned_by" :: ops)
              else ownerRefsOps source wantKind rest

/-- The edge ops emitted by the Service pod loop, in loop order. -/
def svcPodOps (svc : EntityKey) (selector : UMap) : List (String × UMap) → Option (List EdgeOp)
  | [] => some []
  | (_, pod) :: rest =>
      match (mget pod "metadata").asMap with
      | none => none
      | some pmeta =>
          match (mget pmeta "name").asStr with
          | none => none
          | some podName =>
              match (mget pmeta "namespace").asStr with
              | none => none
              | some podNamespace =>
                  match labelsOf pmeta with
                  | none => none
                  | some podLabels =>
                      (svcPodOps svc selector rest).map
                        (fun ops =>
                          (if matchesSelector selector podLabels then
                            EdgeOp.add svc ⟨podName, podNamespace, "Pod"⟩ "targets"
                          else
                            EdgeOp.remove svc ⟨podName, podNamespace, "Pod"⟩ "targets") :: ops)

/-- The edge ops emitted by the Deployment volumes loop, in loop order. -/
def volumesOps (dep : EntityKey) : List Val → Option (List EdgeOp)
  | [] => some []
  | v :: rest =>
      match v.asMap with
      | none => none
      | some vol =>
          match vol.lookup "configMap" with
          | none => volumesOps dep rest
          | some cmv =>
              match cmv.asMap with
              | none => none
              | some cm =>
                  match (mget cm "name").asStr with
                  | none => none
                  | some cmName =>
                      (volumesOps dep rest).map
                        (fun ops => EdgeOp.add dep ⟨cmName, dep.Ns, "ConfigMap"⟩ "uses" :: ops)

/-- The edge ops `updateRelationships` issues for one changed entity: a pure
function of the object and the pod cache (the graph never influences which
ops are issued). -/
def relOps (obj : UMap) (resourceType name ns : String)
    (podCache : List (String × UMap)) : Option (List EdgeOp) :=
  if resourceType = "Pod" then
    match (mget obj "spec").asMap with
    | none => none
    | some spec =>
        let pre :=
          match (mget spec "nodeName").asStr with
          | some nodeName =>
              if nodeName ≠ "" then
                [EdgeOp.add ⟨name, ns, "Pod"⟩ ⟨nodeName, "", "Node"⟩ "runs_on"]
              else []
          | none => []
        match (mget obj "metadata").asMap with
        | none => none
        | some metadata =>
            match (mget metadata "ownerReferences").asArr with
            | none => some pre
            | some refs => (ownerRefsOps ⟨name, ns, "Pod"⟩ "ReplicaSet" refs).map (pre ++ ·)
  else if resourceType = "ReplicaSet" then
    match (mget obj "metadata").asMap with
    | none => none
    | some metadata =>
        match (mget metadata "ownerReferences").asArr with
        | none => some []
        | some refs => ownerRefsOps ⟨name, ns, "ReplicaSet"⟩ "Deployment" refs
  else if resourceType = "Service" then
    match (mget obj "spec").asMap with
    | none => none
    | some spec =>
        match (mget spec "selector").asMap with
        | none => some []
        | some selector => svcPodOps ⟨name, ns, "Service"⟩ selector podCache
  else if resourceType = "Deployment" then
    match (mget obj "spec").asMap with
    | none => none
    | some spec =>
        match (mget spec "template").asMap with
        | none => none
        | some template =>
            match (mget template "spec").asMap with
            | none => none
            | some tspec =>
                match (mget tspec "volumes").asArr with
                | none => some []
                | some volumes => volumesOps ⟨name, ns, "Deployment"⟩ volumes
  else some []

theorem applyOps_append (a b : List EdgeOp) (g : Graph) :
    applyOps (a ++ b) g = applyOps b (applyOps a g) := by
  unfold applyOps
  rw [List.foldl_append]

theorem ownerRefsLoop_eq_ops (source : EntityKey) (wantKind : String) :
    ∀ (refs : List Val) (g : Graph),
      ownerRefsLoop source wantKind g refs =
        (ownerRefsOps source wantKind refs).map (fun ops => applyOps ops g) := by
  intro refs
  induction refs with
  | nil => intro g; rfl
  | cons r rest ih =>
      intro g
      simp only [ownerRefsLoop, ownerRefsOps]
      cases r.asMap with
      | none => rfl
      | some owner =>
          simp only []
          cases (mget owner "kind").asStr with
          | none => rfl
          | some kind =>
              simp only []
              by_cases hk : kind = wantKind
              · rw [if_pos hk, if_pos hk]
                cases (mget owner "name").asStr with
                | none => rfl
                | some oname =>
                    simp only []
                    rw [ih]
                    cases ownerRefsOps source wantKind rest with
                    | none => rfl
                    | some ops => rfl
              · rw [if_neg hk, if_neg hk]
                exact ih g

theorem svcPodLoop_eq_ops (svc : EntityKey) (selector : UMap) :
    ∀ (cache : List (String × UMap)) (g : Graph),
      svcPodLoop svc selector g cache =
        (svcPodOps svc selector cache).map (fun ops => applyOps ops g) := by
  intro cache
  induction cache with
  | nil => intro g; rfl
  | cons e rest ih =>
      intro g
      obtain ⟨k, pod⟩ := e
      simp only [svcPodLoop, svcPodOps]
      cases (mget pod "metadata").asMap with
      | none => rfl
      | some pmeta =>
          simp only []
          cases (mget pmeta "name").asStr with
          | none => rfl
          | some podName =>
              simp only []
              cases (mget pmeta "namespace").asStr with
              | none => rfl
              | some podNamespace =>
                  simp only []
                  cases labelsOf pmeta with
                  | none => rfl
                  | some podLabels =>
                      simp only []
                      by_cases hm : matchesSelector selector podLabels = true
                      · rw [if_pos hm, if_pos hm, ih]
                        cases svcPodOps svc selector rest with
                        | none => rfl
                        | some ops => rfl
                      · rw [if_neg hm, if_neg hm, ih]
                        cases svcPodOps svc selector rest with
                        | none => rfl
                        | some ops => rfl

theorem volumesLoop_eq_ops (dep : EntityKey) :
    ∀ (volumes : List Val) (g : Graph),
      volumesLoop dep g volumes = (volumesOps dep volumes).map (fun ops => applyOps ops g) := by
  intro volumes
  induction volumes with
  | nil => intro g; rfl
  | cons v rest ih =>
      intro g
      simp only [volumesLoop, volumesOps]
      cases v.asMap with
      | none => rfl
      | some vol =>
          simp only []
          cases vol.lookup "configMap" with
          | none => exact ih g
          | some cmv =>
              simp only []
              cases cmv.asMap with
              | none => rfl
              | some cm =>
                  simp only []
                  cases (mget cm "name").asStr with
                  | none => rfl
                  | some cmName =>
                      simp only []
                      rw [ih]
                      cases volumesOps dep rest with
                      | none => rfl
                      | some ops => rfl

theorem updateRelationships_eq_ops (g : Graph) (obj : UMap) (resourceType name ns : String)
    (cache : List (String × UMap)) :
    updateRelationships g obj resourceType name ns cache =
      (relOps obj resourceType name ns cache).map (fun ops => applyOps ops g) := by
  unfold updateRelationships relOps
  by_cases hPod : resourceType = "Pod"
  · rw [if_pos hPod, if_pos hPod]
    cases (mget obj "spec").asMap with
    | none => rfl
    | some spec =>
        simp only []
        cases hnn : (mget spec "nodeName").asStr with
        | none =>
            simp only []
            cases (mget obj "metadata").asMap with
            | none => rfl
            | some metadata =>
                simp only []
                cases (mget metadata "ownerReferences").asArr with
                | none => rfl
                | some refs =>
                    simp only []
                    rw [ownerRefsLoop_eq_ops]
                    cases ownerRefsOps ⟨name, ns, "Pod"⟩ "ReplicaSet" refs with
                    | none => rfl
                    | some ops => rfl
        | some nodeName =>
            simp only []
            by_cases hne : nodeName ≠ ""
            · rw [if_pos hne, if_pos hne]
              cases (mget obj "metadata").asMap with
              | none => rfl
              | some metadata =>
                  simp only []
                  cases (mget metadata "ownerReferences").asArr with
                  | none => rfl
                  | some refs =>
                      simp only []
                      rw [ownerRefsLoop_eq_ops]
                      cases ownerRefsOps ⟨name, ns, "Pod"⟩ "ReplicaSet" refs with
                      | none => rfl
                      | some ops =>
                          simp only [Option.map_some']
                          rw [applyOps_append]
                          rfl
            · rw [if_neg hne, if_neg hne]
              cases (mget obj "metadata").asMap with
              | none => rfl
              | some metadata =>
                  simp only []
                  cases (mget metadata "ownerReferences").asArr with
                  | none => rfl
                  | some refs =>
                      simp only []
                      rw [ownerRefsLoop_eq_ops]
                      cases ownerRefsOps ⟨name, ns, "Pod"⟩ "ReplicaSet" refs with
                      | none => rfl
                      | some ops => rfl
  · rw [if_neg hPod, if_neg hPod]
    by_cases hRs : resourceType = "ReplicaSet"
    · rw [if_pos hRs, if_pos hRs]
      cases (mget obj "metadata").asMap with
      | none => rfl
      | some metadata =>
          simp only []
          cases (mget metadata "ownerReferences").asArr with
          | none => rfl
          | some refs =>
              simp only []
              exact ownerRefsLoop_eq_ops ⟨name, ns, "ReplicaSet"⟩ "Deployment" refs g
    · rw [if_neg hRs, if_neg hRs]
      by_cases hSvc : resourceType = "Service"
      · rw [if_pos hSvc, if_pos hSvc]
        cases (mget obj "spec").asMap with
        | none => rfl
        | some spec =>
            simp only []
            cases (mget spec "selector").asMap with
            | none => rfl
            | some selector =>
                simp only []
                exact svcPodLoop_eq_ops ⟨name, ns, "Service"⟩ selector cache g
      · rw [if_neg hSvc, if_neg hSvc]
        by_cases hDep : resourceType = "Deployment"
        · rw [if_pos hDep, if_pos hDep]
          cases (mget obj "spec").asMap with
          | none => rfl
          | some spec =>
              simp only []
              cases (mget spec "template").asMap with
              | none => rfl
              | some template =>
                  simp only []
                  cases (mget template "spec").asMap with
                  | none => rfl
                  | some tspec =>
                      simp only []
                      cases (mget tspec "volumes").asArr with
                      | none => rfl
                      | some volumes =>
                          simp only []
                          exact volumesLoop_eq_ops ⟨name, ns, "Deployment"⟩ volumes g
        · rw [if_neg hDep, if_neg hDep]
          rfl

theorem keyEq_refl (a : EntityKey) : keyEq a a = true := by
  simp [keyEq]

theorem relIdEqS_setProps (r : SRel) (p : Option PropMap) (s t : EntityKey) (ty : String) :
    relIdEqS { r with Properties := p } s t ty = relIdEqS r s t ty := rfl

theorem setProps_eq_self (r : SRel) (h : r.Properties = none) :
    { r with Properties := none } = r := by
  cases r with
  | mk a b c d =>
      simp only [] at h
      rw [h]

/-- No relationship in the list matches the identity triple. -/
def noMatch (s t : EntityKey) (ty : String) (m : List SRel) : Prop :=
  ∀ r ∈ m, relIdEqS r s t ty = false

/-- Duplicate-free identity triples, at the stripped level. -/
def NodupS (m : List SRel) : Prop := (m.map tripleS).Nodup

theorem triples_srels (g : Graph) : g.srels.map tripleS = g.idTriples := by
  unfold Graph.srels Graph.idTriples
  rw [List.map_map]
  rfl

theorem addS_self (s t : EntityKey) (ty : String) :
    ∀ m : List SRel, addS s t ty (addS s t ty m) = addS s t ty m := by
  intro m
  induction m with
  | nil =>
      simp only [addS]
      rw [if_pos ((relIdEqS_iff _ _ _ _).mpr rfl)]
  | cons r rest ih =>
      simp only [addS]
      by_cases hm : relIdEqS r s t ty = true
      · rw [if_pos hm]
        simp only [addS]
        rw [if_pos ((relIdEqS_setProps r none s t ty).symm ▸ hm)]
      · rw [if_neg hm]
        simp only [addS]
        rw [if_neg hm, ih]

theorem removeS_eq_self_iff (s t : EntityKey) (ty : String) :
    ∀ m : List SRel, removeS s t ty m = m ↔ noMatch s t ty m := by
  intro m
  induction m with
  | nil => simp [removeS, noMatch]
  | cons r rest ih =>
      simp only [removeS]
      by_cases hm : relIdEqS r s t ty = true
      · rw [if_pos hm]
        constructor
        · intro h
          have := congrArg List.length h
          simp at this
        · intro h
          have := h r (List.mem_cons_self r rest)
          rw [hm] at this
          cases this
      · rw [if_neg hm]
        constructor
        · intro h
          intro x hx
          rcases List.mem_cons.mp hx with rfl | hx2
          · exact Bool.eq_false_iff.mpr hm
          · exact (ih.mp (List.cons.inj h).2) x hx2
        · intro h
          rw [ih.mpr (fun x hx => h x (List.mem_cons.mpr (Or.inr hx)))]

theorem mem_removeS (s t : EntityKey) (ty : String) :
    ∀ m : List SRel, ∀ x ∈ removeS s t ty m, x ∈ m := by
  intro m
  induction m with
  | nil => intro x hx; cases hx
  | cons r rest ih =>
      intro x hx
      simp only [removeS] at hx
      by_cases hm : relIdEqS r s t ty = true
      · rw [if_pos hm] at hx
        exact List.mem_cons.mpr (Or.inr hx)
      · rw [if_neg hm] at hx
        rcases List.mem_cons.mp hx with rfl | hx2
        · exact List.mem_cons_self x rest
        · exact List.mem_cons.mpr (Or.inr (ih x hx2))

theorem noMatch_removeS (s t : EntityKey) (ty : String) :
    ∀ m : List SRel, NodupS m → noMatch s t ty (removeS s t ty m) := by
  intro m
  induction m with
  | nil => intro _ x hx; cases hx
  | cons r rest ih =>
      intro hnd
      have hnd2 := List.nodup_cons.mp hnd
      simp only [removeS]
      by_cases hm : relIdEqS r s t ty = true
      · rw [if_pos hm]
        intro x hx
        by_contra hc
        have hxm : relIdEqS x s t ty = true := Bool.not_eq_false _ |>.mp hc
        have h1 : tripleS x = (s, t, ty) := (relIdEqS_iff _ _ _ _).mp hxm
        have h2 : tripleS r = (s, t, ty) := (relIdEqS_iff _ _ _ _).mp hm
        exact hnd2.1 (h2 ▸ h1 ▸ List.mem_map_of_mem tripleS hx)
      · rw [if_neg hm]
        intro x hx
        rcases List.mem_cons.mp hx with rfl | hx2
        · exact Bool.eq_false_iff.mpr hm
        · exact ih hnd2.2 x hx2

theorem removeS_self (s t : EntityKey) (ty : String) (m : List SRel) (hnd : NodupS m) :
    removeS s t ty (removeS s t ty m) = removeS s t ty m :=
  (removeS_eq_self_iff s t ty _).mpr (noMatch_removeS s t ty m hnd)

theorem mem_triples_addS (s t : EntityKey) (ty : String) :
    ∀ (m : List SRel) (x : EntityKey × EntityKey × String),
      x ∈ (addS s t ty m).map tripleS → x ∈ m.map tripleS ∨ x = (s, t, ty) := by
  intro m
  induction m with
  | nil =>
      intro x hx
      simp only [addS, List.map_cons, List.map_nil] at hx
      rcases List.mem_cons.mp hx with rfl | hx2
      · exact Or.inr rfl
      · cases hx2
  | cons r rest ih =>
      intro x hx
      simp only [addS] at hx
      by_cases hm : relIdEqS r s t ty = true
      · rw [if_pos hm] at hx
        simp only [List.map_cons] at hx
        rcases List.mem_cons.mp hx with rfl | hx2
        · exact Or.inl (List.mem_cons.mpr (Or.inl rfl))
        · exact Or.inl (List.mem_cons.mpr (Or.inr hx2))
      · rw [if_neg hm] at hx
        simp only [List.map_cons] at hx
        rcases List.mem_cons.mp hx with rfl | hx2
        · exact Or.inl (List.mem_cons.mpr (Or.inl rfl))
        · rcases ih x hx2 with h | h
          · exact Or.inl (List.mem_cons.mpr (Or.inr h))
          · exact Or.inr h

theorem nodupS_addS (s t : EntityKey) (ty : String) :
    ∀ m : List SRel, NodupS m → NodupS (addS s t ty m) := by
  intro m
  induction m with
  | nil => intro _; simp [NodupS, addS]
  | cons r rest ih =>
      intro hnd
      have hnd2 := List.nodup_cons.mp (by exact hnd)
      simp only [addS]
      by_cases hm : relIdEqS r s t ty = true
      · rw [if_pos hm]
        unfold NodupS
        simp only [List.map_cons]
        exact List.nodup_cons.mpr ⟨hnd2.1, hnd2.2⟩
      · rw [if_neg hm]
        unfold NodupS
        simp only [List.map_cons]
        refine List.nodup_cons.mpr ⟨?_, ih hnd2.2⟩
        intro hc
        rcases mem_triples_addS s t ty rest (tripleS r) hc with h | h
        · exact hnd2.1 h
        · exact hm ((relIdEqS_iff _ _ _ _).mpr h)

theorem nodupS_removeS (s t : EntityKey) (ty : String) :
    ∀ m : List SRel, NodupS m → NodupS (removeS s t ty m) := by
  intro m
  induction m with
  | nil => intro _; simp [NodupS, removeS]
  | cons r rest ih =>
      intro hnd
      have hnd2 := List.nodup_cons.mp (by exact hnd)
      simp only [removeS]
      by_cases hm : relIdEqS r s t ty = true
      · rw [if_pos hm]
        exact hnd2.2
      · rw [if_neg hm]
        unfold NodupS
        simp only [List.map_cons]
        refine List.nodup_cons.mpr ⟨?_, ih hnd2.2⟩
        intro hc
        rcases List.mem_map.mp hc with ⟨y, hy, hty⟩
        exact hnd2.1 (hty ▸ List.mem_map_of_mem tripleS (mem_removeS s t ty rest y hy))

theorem noMatch_addS (s t : EntityKey) (ty : String) (s2 t2 : EntityKey) (ty2 : String)
    (hne : (s, t, ty) ≠ (s2, t2, ty2)) :
    ∀ m : List SRel, noMatch s t ty m → noMatch s t ty (addS s2 t2 ty2 m) := by
  intro m
  induction m with
  | nil =>
      intro _ x hx
      simp only [addS] at hx
      rcases List.mem_cons.mp hx with rfl | hx2
      · refine Bool.eq_false_iff.mpr (fun hc => hne ?_)
        have := (relIdEqS_iff _ _ _ _).mp hc
        simpa [tripleS] using this.symm
      · cases hx2
  | cons r rest ih =>
      intro h x hx
      simp only [addS] at hx
      by_cases hm : relIdEqS r s2 t2 ty2 = true
      · rw [if_pos hm] at hx
        rcases List.mem_cons.mp hx with rfl | hx2
        · rw [relIdEqS_setProps]
          exact h r (List.mem_cons_self r rest)
        · exact h x (List.mem_cons.mpr (Or.inr hx2))
      · rw [if_neg hm] at hx
        rcases List.mem_cons.mp hx with rfl | hx2
        · exact h x (List.mem_cons_self x rest)
        · exact ih (fun y hy => h y (List.mem_cons.mpr (Or.inr hy))) x hx2

theorem addS_fix_addS (s t : EntityKey) (ty : String) (s2 t2 : EntityKey) (ty2 : String) :
    ∀ m : List SRel, addS s t ty m = m →
      addS s t ty (addS s2 t2 ty2 m) = addS s2 t2 ty2 m := by
  intro m
  induction m with
  | nil =>
      intro hfix
      simp [addS] at hfix
  | cons r rest ih =>
      intro hfix
      simp only [addS] at hfix
      by_cases hma : relIdEqS r s t ty = true
      · rw [if_pos hma] at hfix
        have hpr : { r with Properties := none } = r := (List.cons.inj hfix).1
        simp only [addS]
        by_cases hmb : relIdEqS r s2 t2 ty2 = true
        · rw [if_pos hmb]
          simp only [addS]
          rw [if_pos ((relIdEqS_setProps r none s t ty).symm ▸ hma)]
        · rw [if_neg hmb]
          simp only [addS]
          rw [if_pos hma, hpr]
      · rw [if_neg hma] at hfix
        have htail : addS s t ty rest = rest := (List.cons.inj hfix).2
        simp only [addS]
        by_cases hmb : relIdEqS r s2 t2 ty2 = true
        · rw [if_pos hmb]
          simp only [addS]
          rw [if_neg ((relIdEqS_setProps r none s t ty).symm ▸ hma), htail]
        · rw [if_neg hmb]
          simp only [addS]
          rw [if_neg hma, ih htail]

theorem addS_fix_removeS (s t : EntityKey) (ty : String) (s2 t2 : EntityKey) (ty2 : String)
    (hne : (s, t, ty) ≠ (s2, t2, ty2)) :
    ∀ m : List SRel, addS s t ty m = m →
      addS s t ty (removeS s2 t2 ty2 m) = removeS s2 t2 ty2 m := by
  intro m
  induction m with
  | nil =>
      intro hfix
      simp [addS] at hfix
  | cons r rest ih =>
      intro hfix
      simp only [addS] at hfix
      by_cases hma : relIdEqS r s t ty = true
      · rw [if_pos hma] at hfix
        have hpr : { r with Properties := none } = r := (List.cons.inj hfix).1
        simp only [removeS]
        by_cases hmb : relIdEqS r s2 t2 ty2 = true
        · exfalso
          apply hne
          have h1 := (relIdEqS_iff _ _ _ _).mp hma
          have h2 := (relIdEqS_iff _ _ _ _).mp hmb
          rw [← h1, ← h2]
        · rw [if_neg hmb]
          simp only [addS]
          rw [if_pos hma, hpr]
      · rw [if_neg hma] at hfix
        have htail : addS s t ty rest = rest := (List.cons.inj hfix).2
        simp only [removeS]
        by_cases hmb : relIdEqS r s2 t2 ty2 = true
        · rw [if_pos hmb]
          exact htail
        · rw [if_neg hmb]
          simp only [addS]
          rw [if_neg hma, ih htail]

theorem removeS_fix_addS (s t : EntityKey) (ty : String) (s2 t2 : EntityKey) (ty2 : String)
    (hne : (s, t, ty) ≠ (s2, t2, ty2)) (m : List SRel) (hfix : removeS s t ty m = m) :
    removeS s t ty (addS s2 t2 ty2 m) = addS s2 t2 ty2 m :=
  (removeS_eq_self_iff s t ty _).mpr
    (noMatch_addS s t ty s2 t2 ty2 hne m ((removeS_eq_self_iff s t ty m).mp hfix))

theorem removeS_fix_removeS (s t : EntityKey) (ty : String) (s2 t2 : EntityKey) (ty2 : String)
    (m : List SRel) (hfix : removeS s t ty m = m) :
    removeS s t ty (removeS s2 t2 ty2 m) = removeS s2 t2 ty2 m := by
  refine (removeS_eq_self_iff s t ty _).mpr ?_
  intro x hx
  exact ((removeS_eq_self_iff s t ty m).mp hfix) x (mem_removeS s2 t2 ty2 m x hx)

/-- An op is settled when replaying it leaves the stripped relationships
untouched. -/
def settledOp (o : EdgeOp) (m : List SRel) : Prop := o.runS m = m

theorem nodupS_runS (o : EdgeOp) (m : List SRel) (hnd : NodupS m) : NodupS (o.runS m) := by
  cases o with
  | add s t ty => exact nodupS_addS s t ty m hnd
  | remove s t ty => exact nodupS_removeS s t ty m hnd

theorem nodupS_applyOpsS (ops : List EdgeOp) :
    ∀ m : List SRel, NodupS m → NodupS (applyOpsS ops m) := by
  induction ops with
  | nil => intro m h; exact h
  | cons o rest ih =>
      intro m h
      exact ih (o.runS m) (nodupS_runS o m h)

theorem settledOp_preserved (o o2 : EdgeOp)
    (hcomp : o.triple = o2.triple → o.isAdd = o2.isAdd)
    (m : List SRel) (hs : settledOp o m) : settledOp o (o2.runS m) := by
  cases o with
  | add s t ty =>
      cases o2 with
      | add s2 t2 ty2 => exact addS_fix_addS s t ty s2 t2 ty2 m hs
      | remove s2 t2 ty2 =>
          by_cases he : (s, t, ty) = (s2, t2, ty2)
          · exact absurd (hcomp (by simp [EdgeOp.triple, he])) (by simp [EdgeOp.isAdd])
          · exact addS_fix_removeS s t ty s2 t2 ty2 he m hs
  | remove s t ty =>
      cases o2 with
      | add s2 t2 ty2 =>
          by_cases he : (s, t, ty) = (s2, t2, ty2)
          · exact absurd (hcomp (by simp [EdgeOp.triple, he])) (by simp [EdgeOp.isAdd])
          · exact removeS_fix_addS s t ty s2 t2 ty2 he m hs
      | remove s2 t2 ty2 => exact removeS_fix_removeS s t ty s2 t2 ty2 m hs

theorem settledOp_after_ops (o : EdgeOp) :
    ∀ (ops : List EdgeOp) (m : List SRel),
      (∀ o2 ∈ ops, o.triple = o2.triple → o.isAdd = o2.isAdd) →
      settledOp o m → settledOp o (applyOpsS ops m) := by
  intro ops
  induction ops with
  | nil => intro m _ hs; exact hs
  | cons o2 rest ih =>
      intro m hcomp hs
      exact ih (o2.runS m) (fun o3 h3 => hcomp o3 (List.mem_cons.mpr (Or.inr h3)))
        (settledOp_preserved o o2 (hcomp o2 (List.mem_cons_self o2 rest)) m hs)

theorem settledOp_self (o : EdgeOp) (m : List SRel) (hnd : NodupS m) :
    settledOp o (o.runS m) := by
  cases o with
  | add s t ty => exact addS_self s t ty m
  | remove s t ty => exact removeS_self s t ty m hnd

/-- No add/remove pair in the list shares an identity triple. -/
def opsCoherent (ops : List EdgeOp) : Prop :=
  ∀ o1 ∈ ops, ∀ o2 ∈ ops, o1.triple = o2.triple → o1.isAdd = o2.isAdd

theorem applyOpsS_fix : ∀ (ops : List EdgeOp) (m : List SRel),
    (∀ o ∈ ops, settledOp o m) → applyOpsS ops m = m := by
  intro ops
  induction ops with
  | nil => intro m _; rfl
  | cons o rest ih =>
      intro m h
      show applyOpsS rest (o.runS m) = m
      rw [h o (List.mem_cons_self o rest)]
      exact ih m (fun o2 h2 => h o2 (List.mem_cons.mpr (Or.inr h2)))

theorem settled_after_pass : ∀ (ops : List EdgeOp) (m : List SRel),
    opsCoherent ops → NodupS m → ∀ o ∈ ops, settledOp o (applyOpsS ops m) := by
  intro ops
  induction ops with
  | nil => intro m _ _ o ho; cases ho
  | cons o rest ih =>
      intro m hco hnd o1 ho1
      rcases List.mem_cons.mp ho1 with rfl | ho2
      · show settledOp o1 (applyOpsS rest (o1.runS m))
        refine settledOp_after_ops o1 rest (o1.runS m) ?_ (settledOp_self o1 m hnd)
        intro o2 h2
        exact hco o1 (List.mem_cons_self o1 rest) o2 (List.mem_cons.mpr (Or.inr h2))
      · show settledOp o1 (applyOpsS rest (o.runS m))
        refine ih (o.runS m) ?_ (nodupS_runS o m hnd) o1 ho2
        intro a ha b hb
        exact hco a (List.mem_cons.mpr (Or.inr ha)) b (List.mem_cons.mpr (Or.inr hb))

theorem opsReplay (ops : List EdgeOp) (m : List SRel) (hco : opsCoherent ops)
    (hnd : NodupS m) : applyOpsS ops (applyOpsS ops m) = applyOpsS ops m :=
  applyOpsS_fix ops _ (settled_after_pass ops m hco hnd)

theorem coherent_of_adds (ops : List EdgeOp) (h : ∀ o ∈ ops, o.isAdd = true) :
    opsCoherent ops :=
  fun o1 h1 o2 h2 _ => (h o1 h1).trans (h o2 h2).symm

theorem coherent_of_pairwise :
    ∀ ops : List EdgeOp, List.Pairwise (fun a b => a.triple ≠ b.triple) ops →
      opsCoherent ops := by
  intro ops
  induction ops with
  | nil => intro _ o ho; cases ho
  | cons o rest ih =>
      intro hp o1 h1 o2 h2 heq
      have hp2 := List.pairwise_cons.mp hp
      rcases List.mem_cons.mp h1 with rfl | h1b
      · rcases List.mem_cons.mp h2 with rfl | h2b
        · rfl
        · exact absurd heq (hp2.1 o2 h2b)
      · rcases List.mem_cons.mp h2 with rfl | h2b
        · exact absurd heq.symm (hp2.1 o1 h1b)
        · exact ih hp2.2 o1 h1b o2 h2b heq

theorem ownerRefsOps_adds (source : EntityKey) (wantKind : String) :
    ∀ (refs : List Val) (ops : List EdgeOp), ownerRefsOps source wantKind refs = some ops →
      ∀ o ∈ ops, o.isAdd = true := by
  intro refs
  induction refs with
  | nil =>
      intro ops h o ho
      simp only [ownerRefsOps] at h
      cases h
      cases ho
  | cons r rest ih =>
      intro ops h o ho
      simp only [ownerRefsOps] at h
      split at h
      · exact absurd h (by simp)
      · split at h
        · exact absurd h (by simp)
        · split at h
          · split at h
            · exact absurd h (by simp)
            · cases hu : ownerRefsOps source wantKind rest with
              | none => rw [hu] at h; exact absurd h (by simp)
              | some ops2 =>
                  rw [hu] at h
                  simp only [Option.map_some'] at h
                  cases h
                  rcases List.mem_cons.mp ho with rfl | ho2
                  · rfl
                  · exact ih ops2 hu o ho2
          · exact ih ops h o ho

theorem volumesOps_adds (dep : EntityKey) :
    ∀ (volumes : List Val) (ops : List EdgeOp), volumesOps dep volumes = some ops →
      ∀ o ∈ ops, o.isAdd = true := by
  intro volumes
  induction volumes with
  | nil =>
      intro ops h o ho
      simp only [volumesOps] at h
      cases h
      cases ho
  | cons v rest ih =>
      intro ops h o ho
      simp only [volumesOps] at h
      split at h
      · exact absurd h (by simp)
      · split at h
        · exact ih ops h o ho
        · split at h
          · exact absurd h (by simp)
          · split at h
            · exact absurd h (by simp)
            · cases hu : volumesOps dep rest with
              | none => rw [hu] at h; exact absurd h (by simp)
              | some ops2 =>
                  rw [hu] at h
                  simp only [Option.map_some'] at h
                  cases h
                  rcases List.mem_cons.mp ho with rfl | ho2
                  · rfl
                  · exact ih ops2 hu o ho2

theorem relOps_nonService_adds (obj : UMap) (resourceType name ns : String)
    (cache : List (String × UMap)) (ops : List EdgeOp)
    (hrt : resourceType ≠ "Service")
    (h : relOps obj resourceType name ns cache = some ops) :
    ∀ o ∈ ops, o.isAdd = true := by
  unfold relOps at h
  split_ifs at h with hPod hRs hDep
  · -- Pod
    split at h
    · exact absurd h (by simp)
    · simp only [] at h
      split at h
      · exact absurd h (by simp)
      · split at h
        · cases h
          intro o ho
          -- ops is the pre list: either [add] or []
          split at ho
          · split at ho
            · rcases List.mem_cons.mp ho with rfl | ho2
              · rfl
              · cases ho2
            · cases ho
          · cases ho
        · cases hu : ownerRefsOps ⟨name, ns, "Pod"⟩ "ReplicaSet" _ with
          | none => rw [hu] at h; exact absurd h (by simp)
          | some ops2 =>
              rw [hu] at h
              simp only [Option.map_some'] at h
              cases h
              intro o ho
              rcases List.mem_append.mp ho with hpre | hrefs
              · split at hpre
                · split at hpre
                  · rcases List.mem_cons.mp hpre with rfl | h2
                    · rfl
                    · cases h2
                  · cases hpre
                · cases hpre
              · exact ownerRefsOps_adds ⟨name, ns, "Pod"⟩ "ReplicaSet" _ ops2 hu o hrefs
  · -- ReplicaSet
    split at h
    · exact absurd h (by simp)
    · split at h
      · cases h
        intro o ho
        cases ho
      · exact ownerRefsOps_adds ⟨name, ns, "ReplicaSet"⟩ "Deployment" _ ops h
  · -- Deployment
    split at h
    · exact absurd h (by simp)
    · split at h
      · exact absurd h (by simp)
      · split at h
        · exact absurd h (by simp)
        · split at h
          · cases h
            intro o ho
            cases ho
          · exact volumesOps_adds ⟨name, ns, "Deployment"⟩ _ ops h
  · -- other kinds
    cases h
    intro o ho
    cases ho

theorem relOps_nonService_indep (obj : UMap) (resourceType name ns : String)
    (c1 c2 : List (String × UMap)) (hrt : resourceType ≠ "Service") :
    relOps obj resourceType name ns c1 = relOps obj resourceType name ns c2 := by
  unfold relOps
  split_ifs with hPod hRs hDep
  · rfl
  · rfl
  · rfl
  · rfl

theorem svcPodOps_mem_triple (svc : EntityKey) (selector : UMap) :
    ∀ (cache : List (String × UMap)) (ops : List EdgeOp),
      svcPodOps svc selector cache = some ops →
      ∀ o ∈ ops, ∃ e ∈ cache, ∃ pn pns, podIdent e.2 = some (pn, pns) ∧
        o.triple = (svc, ⟨pn, pns, "Pod"⟩, "targets") := by
  intro cache
  induction cache with
  | nil =>
      intro ops h o ho
      simp only [svcPodOps] at h
      cases h
      cases ho
  | cons e rest ih =>
      intro ops h o ho
      obtain ⟨k, pod⟩ := e
      simp only [svcPodOps] at h
      split at h
      · exact absurd h (by simp)
      · rename_i pmeta hmeta
        split at h
        · exact absurd h (by simp)
        · rename_i podName hname
          split at h
          · exact absurd h (by simp)
          · rename_i podNamespace hns
            split at h
            · exact absurd h (by simp)
            · rename_i podLabels hlabels
              cases hu : svcPodOps svc selector rest with
              | none => rw [hu] at h; exact absurd h (by simp)
              | some ops2 =>
                  rw [hu] at h
                  simp only [Option.map_some'] at h
                  cases h
                  rcases List.mem_cons.mp ho with rfl | ho2
                  · refine ⟨(k, pod), List.mem_cons_self _ rest, podName, podNamespace, ?_, ?_⟩
                    · simp only [podIdent, hmeta, hname, hns]
                    · by_cases hm : matchesSelector selector podLabels = true
                      · rw [if_pos hm]; rfl
                      · rw [if_neg hm]; rfl
                  · obtain ⟨e2, he2, pn, pns, hid, htr⟩ := ih ops2 hu o ho2
                    exact ⟨e2, List.mem_cons.mpr (Or.inr he2), pn, pns, hid, htr⟩

theorem svcPodOps_pairwise (svc : EntityKey) (selector : UMap) :
    ∀ (cache : List (String × UMap)) (ops : List EdgeOp),
      svcPodOps svc selector cache = some ops →
      List.Pairwise (fun a b => a ≠ b) (cache.map (fun e => podIdent e.2)) →
      List.Pairwise (fun a b => a.triple ≠ b.triple) ops := by
  intro cache
  induction cache with
  | nil =>
      intro ops h _
      simp only [svcPodOps] at h
      cases h
      exact List.Pairwise.nil
  | cons e rest ih =>
      intro ops h hdist
      obtain ⟨k, pod⟩ := e
      simp only [svcPodOps] at h
      split at h
      · exact absurd h (by simp)
      · rename_i pmeta hmeta
        split at h
        · exact absurd h (by simp)
        · rename_i podName hname
          split at h
          · exact absurd h (by simp)
          · rename_i podNamespace hns
            split at h
            · exact absurd h (by simp)
            · rename_i podLabels hlabels
              cases hu : svcPodOps svc selector rest with
              | none => rw [hu] at h; exact absurd h (by simp)
              | some ops2 =>
                  rw [hu] at h
                  simp only [Option.map_some'] at h
                  cases h
                  have hdist' : List.Pairwise (fun a b => a ≠ b)
                      (podIdent pod :: rest.map (fun e => podIdent e.2)) := hdist
                  have hdist2 := List.pairwise_cons.mp hdist'
                  refine List.pairwise_cons.mpr ⟨?_, ih ops2 hu hdist2.2⟩
                  intro o2 ho2
                  obtain ⟨e2, he2, pn, pns, hid, htr⟩ :=
                    svcPodOps_mem_triple svc selector rest ops2 hu o2 ho2
                  have hhead : podIdent pod = some (podName, podNamespace) := by
                    simp only [podIdent, hmeta, hname, hns]
                  have hne : podIdent pod ≠ podIdent e2.2 :=
                    hdist2.1 (podIdent e2.2) (List.mem_map_of_mem (fun e => podIdent e.2) he2)
                  have hpairs : (podName, podNamespace) ≠ (pn, pns) := by
                    intro hc
                    exact hne (by rw [hhead, hid, hc])
                  have htriple : (if matchesSelector selector podLabels then
                      EdgeOp.add svc ⟨podName, podNamespace, "Pod"⟩ "targets"
                    else EdgeOp.remove svc ⟨podName, podNamespace, "Pod"⟩ "targets").triple
                      = (svc, ⟨podName, podNamespace, "Pod"⟩, "targets") := by
                    by_cases hm : matchesSelector selector podLabels = true
                    · rw [if_pos hm]; rfl
                    · rw [if_neg hm]; rfl
                  rw [htriple, htr]
                  intro hc
                  apply hpairs
                  have hkeys : (⟨podName, podNamespace, "Pod"⟩ : EntityKey) = ⟨pn, pns, "Pod"⟩ :=
                    congrArg (fun x => x.2.1) hc
                  exact Prod.ext_iff.mpr
                    ⟨congrArg EntityKey.Name hkeys, congrArg EntityKey.Ns hkeys⟩

theorem relOps_service_coherent (obj : UMap) (name ns : String)
    (cache : List (String × UMap)) (ops : List EdgeOp)
    (hdist : List.Pairwise (fun a b => a ≠ b) (cache.map (fun e => podIdent e.2)))
    (h : relOps obj "Service" name ns cache = some ops) : opsCoherent ops := by
  unfold relOps at h
  rw [if_neg (by decide : ¬("Service" = "Pod")),
      if_neg (by decide : ¬("Service" = "ReplicaSet")),
      if_pos (rfl : "Service" = "Service")] at h
  split at h
  · exact absurd h (by simp)
  · split at h
    · cases h
      intro o ho
      cases ho
    · exact coherent_of_pairwise ops (svcPodOps_pairwise _ _ cache ops h hdist)

/-- The net effect of the `AddNode` scan on the node list: replace the first
node with the same key, or append. -/
def addNodeList (node : GraphNode) : List GraphNode → List GraphNode
  | [] => [node]
  | n :: rest =>
      if keyEq n.Key node.Key then node :: rest
      else n :: addNodeList node rest

theorem replaceNode_match_eq (node : GraphNode) :
    ∀ l : List GraphNode,
      (match replaceNode node l with
       | some l2 => l2
       | none => l ++ [node]) = addNodeList node l := by
  intro l
  induction l with
  | nil => simp [replaceNode, addNodeList]
  | cons n rest ih =>
      simp only [replaceNode, addNodeList]
      by_cases hm : keyEq n.Key node.Key = true
      · rw [if_pos hm, if_pos hm]
      · rw [if_neg hm, if_neg hm]
        cases hu : replaceNode node rest with
        | none =>
            simp only [hu, Option.map_none'] at ih ⊢
            rw [List.cons_append, ih]
        | some l2 =>
            simp only [hu, Option.map_some'] at ih ⊢
            rw [ih]

theorem AddNode_cases (g : Graph) (obj : GoObj) (g2 : Graph) (h : g.AddNode obj = some g2) :
    (objectToGraphNode obj = some none ∧ g2 = g) ∨
    (∃ node, objectToGraphNode obj = some (some node) ∧
      g2.Nodes = addNodeList node g.Nodes ∧ g2.Relationships = g.Relationships) := by
  unfold Graph.AddNode at h
  split at h
  · exact absurd h (by simp)
  · rename_i hobj
    left
    injection h with h2
    exact ⟨hobj, h2.symm⟩
  · rename_i node hobj
    right
    refine ⟨node, hobj, ?_⟩
    have hrepl := replaceNode_match_eq node g.Nodes
    split at h
    · rename_i nodes hrep
      injection h with h2
      rw [hrep] at hrepl
      rw [← h2]
      exact ⟨hrepl.symm ▸ rfl, rfl⟩
    · rename_i hrep
      injection h with h2
      rw [hrep] at hrepl
      rw [← h2]
      exact ⟨hrepl.symm ▸ rfl, rfl⟩

theorem addNodeList_idem (node : GraphNode) :
    ∀ l : List GraphNode, addNodeList node (addNodeList node l) = addNodeList node l := by
  intro l
  induction l with
  | nil =>
      simp only [addNodeList]
      rw [if_pos (keyEq_refl node.Key)]
  | cons n rest ih =>
      simp only [addNodeList]
      by_cases hm : keyEq n.Key node.Key = true
      · rw [if_pos hm]
        simp only [addNodeList]
        rw [if_pos (keyEq_refl node.Key)]
      · rw [if_neg hm]
        simp only [addNodeList]
        rw [if_neg hm, ih]

theorem cacheSet_idem (k : String) (v : UMap) :
    ∀ c : List (String × UMap), cacheSet (cacheSet c k v) k v = cacheSet c k v := by
  intro c
  induction c with
  | nil =>
      simp [cacheSet]
  | cons e rest ih =>
      obtain ⟨k2, v2⟩ := e
      simp only [cacheSet]
      by_cases hk : k2 = k
      · rw [if_pos hk]
        simp [cacheSet]
      · rw [if_neg hk]
        simp only [cacheSet]
        rw [if_neg hk, ih]

/-- The name `watchResource` extracts from an event object. -/
def objName (objT : K8sTyped) : Option String :=
  match (mget (toUnstructured objT) "metadata").asMap with
  | none => none
  | some metadata => (mget metadata "name").asStr

/-- The namespace `watchResource` extracts from an event object (with the
presence and nil check). -/
def objNs (objT : K8sTyped) : Option String :=
  match (mget (toUnstructured objT) "metadata").asMap with
  | none => none
  | some metadata =>
      match metadata.lookup "namespace" with
      | none => some ""
      | some Val.null => some ""
      | some v => v.asStr

/-- Decomposition of a successful Added-event step: the extracted name and
namespace depend only on the object, the node is added first, and the edge
mutations are exactly the ops of `relOps` applied in order; finally the
caches are written. -/
theorem processEvent_added_parts (s : AppState) (objT : K8sTyped) (s' : AppState)
    (h : processEvent s .added objT = some s') :
    ∃ name ns g1 ops,
      objName objT = some name ∧ objNs objT = some ns ∧
      s.graph.AddNode (GoObj.typed objT) = some g1 ∧
      relOps (toUnstructured objT) objT.kindStr name ns s.podCache = some ops ∧
      s'.graph = applyOps ops g1 ∧
      s'.podCache =
        (if objT.kindStr = "Pod" then
          cacheSet s.podCache (cacheKey ns name) (toUnstructured objT)
         else s.podCache) ∧
      s'.serviceCache =
        (if objT.kindStr = "Service" then
          cacheSet s.serviceCache (cacheKey ns name) (toUnstructured objT)
         else s.serviceCache) := by
  simp only [processEvent] at h
  split at h
  · exact absurd h (by simp)
  · rename_i metadata hmeta
    split at h
    · exact absurd h (by simp)
    · rename_i name hname
      split at h
      · exact absurd h (by simp)
      · rename_i ns hns
        split at h
        · exact absurd h (by simp)
        · rename_i g1 hAdd
          rw [updateRelationships_eq_ops] at h
          cases hops : relOps (toUnstructured objT) objT.kindStr name ns s.podCache with
          | none => rw [hops] at h; exact absurd h (by simp)
          | some ops =>
              rw [hops] at h
              simp only [Option.map_some'] at h
              injection h with h2
              refine ⟨name, ns, g1, ops, ?_, ?_, hAdd, hops, ?_, ?_, ?_⟩
              · simp only [objName, hmeta, hname]
              · simp only [objNs, hmeta, hns]
              · rw [← h2]
              · rw [← h2]
              · rw [← h2]

/-- C6 amended: applying the same Added event twice in a row yields the
identical state up to revision counters — same node list, same edge
identities and properties in the same order, same caches — whenever the
prior graph has duplicate-free edge identities and the pod cache holds
entries with pairwise-distinct pod identities. -/
theorem c6_duplicate_add_idempotent_up_to_revisions
    (s : AppState) (objT : K8sTyped) (s1 s2 : AppState)
    (hnd : s.graph.idTriples.Nodup)
    (hdist : List.Pairwise (fun a b => a ≠ b) (s.podCache.map (fun e => podIdent e.2)))
    (h1 : processEvent s .added objT = some s1)
    (h2 : processEvent s1 .added objT = some s2) :
    stripState s2 = stripState s1 := by
  obtain ⟨name, ns, gA, ops1, hn1, hns1, hAdd1, hops1, hg1, hpc1, hsc1⟩ :=
    processEvent_added_parts s objT s1 h1
  obtain ⟨name2, ns2, gC, ops2, hn2, hns2, hAdd2, hops2, hg2, hpc2, hsc2⟩ :=
    processEvent_added_parts s1 objT s2 h2
  rw [hn1] at hn2
  injection hn2 with hnEq
  subst hnEq
  rw [hns1] at hns2
  injection hns2 with hnsEq
  subst hnsEq
  have hopsEq : ops2 = ops1 := by
    by_cases hk : objT.kindStr = "Service"
    · have hpc : s1.podCache = s.podCache := by
        rw [hpc1, if_neg (by rw [hk]; decide)]
      rw [hpc, hops1] at hops2
      injection hops2 with h
      exact h.symm
    · rw [relOps_nonService_indep (toUnstructured objT) objT.kindStr name ns
          s1.podCache s.podCache hk, hops1] at hops2
      injection hops2 with h
      exact h.symm
  subst hopsEq
  have hndS : NodupS s.graph.srels := by
    unfold NodupS
    rw [triples_srels]
    exact hnd
  have hcoh : opsCoherent ops2 := by
    by_cases hk : objT.kindStr = "Service"
    · rw [hk] at hops1
      exact relOps_service_coherent (toUnstructured objT) name ns s.podCache ops2 hdist hops1
    · exact coherent_of_adds ops2
        (relOps_nonService_adds (toUnstructured objT) objT.kindStr name ns s.podCache ops2
          hk hops1)
  have hpcF : s2.podCache = s1.podCache := by
    rw [hpc2, hpc1]
    by_cases hk : objT.kindStr = "Pod"
    · simp only [if_pos hk]
      exact cacheSet_idem (cacheKey ns name) (toUnstructured objT) s.podCache
    · simp only [if_neg hk]
  have hscF : s2.serviceCache = s1.serviceCache := by
    rw [hsc2, hsc1]
    by_cases hk : objT.kindStr = "Service"
    · simp only [if_pos hk]
      exact cacheSet_idem (cacheKey ns name) (toUnstructured objT) s.serviceCache
    · simp only [if_neg hk]
  rcases AddNode_cases s.graph (GoObj.typed objT) gA hAdd1 with ⟨hobj, hgA⟩ |
    ⟨node, hobj, hN1, hR1⟩
  · rcases AddNode_cases s1.graph (GoObj.typed objT) gC hAdd2 with ⟨hobj2, hgC⟩ |
      ⟨node2, hobj2, hN2, hR2⟩
    · subst hgA
      subst hgC
      have hNodes : s2.graph.Nodes = s1.graph.Nodes := by
        rw [hg2, applyOps_Nodes]
      have hSrels1 : s1.graph.srels = applyOpsS ops2 s.graph.srels := by
        rw [hg1, srels_applyOps]
      have hSrels : s2.graph.srels = s1.graph.srels := by
        rw [hg2, srels_applyOps, hSrels1, opsReplay ops2 s.graph.srels hcoh hndS, ← hSrels1]
      unfold stripState
      rw [hNodes, hSrels, hpcF, hscF]
    · rw [hobj] at hobj2
      injection hobj2 with hc
      cases hc
  · rcases AddNode_cases s1.graph (GoObj.typed objT) gC hAdd2 with ⟨hobj2, hgC⟩ |
      ⟨node2, hobj2, hN2, hR2⟩
    · rw [hobj] at hobj2
      injection hobj2 with hc
      cases hc
    · rw [hobj] at hobj2
      injection hobj2 with hc
      injection hc with hc2
      subst hc2
      have hNodes1 : s1.graph.Nodes = addNodeList node s.graph.Nodes := by
        rw [hg1, applyOps_Nodes, hN1]
      have hNodes : s2.graph.Nodes = s1.graph.Nodes := by
        rw [hg2, applyOps_Nodes, hN2, hNodes1, addNodeList_idem, ← hNodes1]
      have hsrA : gA.srels = s.graph.srels := by
        unfold Graph.srels
        rw [hR1]
      have hsrC : gC.srels = s1.graph.srels := by
        unfold Graph.srels
        rw [hR2]
      have hSrels1 : s1.graph.srels = applyOpsS ops2 s.graph.srels := by
        rw [hg1, srels_applyOps, hsrA]
      have hSrels : s2.graph.srels = s1.graph.srels := by
        rw [hg2, srels_applyOps, hsrC, hSrels1,
          opsReplay ops2 s.graph.srels hcoh hndS, ← hSrels1]
      unfold stripState
      rw [hNodes, hSrels, hpcF, hscF]

/-- The C6 witness start state: a service already cached and a graph with an
existing edge. -/
def c6wStart : AppState :=
  ((processEvents initialState
    [(.added, .pod "p0" "default" "Running" "n1" [("app", "x")] []),
     (.added, .service "svc1" "default" "ClusterIP" [("app", "x")])]).getD initialState)

/-- The pod whose Added event the C6 witness duplicates. -/
def c6wPod : K8sTyped := .pod "p1" "default" "Running" "n1" [("app", "x")] []

/-- The state after the first Added event. -/
def c6wS1 : AppState := (processEvent c6wStart .added c6wPod).getD c6wStart

/-- The state after the duplicate Added event. -/
def c6wS2 : AppState := (processEvent c6wS1 .added c6wPod).getD c6wStart

theorem c6_duplicate_add_idempotent_witness : stripState c6wS2 = stripState c6wS1 :=
  c6_duplicate_add_idempotent_up_to_revisions c6wStart c6wPod c6wS1 c6wS2
    (by decide) (by decide) (by decide) (by decide)

end KubeScraper
